import Mathlib

/-!
Media Diary: media tracking, completion counting and leaderboards.

A shallow embedding of the route handlers of `src/server.js` that touch the
tables `media_items`, `daily_reading` and `annual_stats`, followed by theorems
about them.

Modelling conventions.

* A table is the list of its rows, in insertion order.
* A nullable column, and a request field that may be missing or `null`, is an
  `Option`; `none` is SQL `NULL`.
* `is_finished` is stored as `0`/`1` (`is_finished ? 1 : 0`) and read through
  JavaScript truthiness, so it is a `Bool`, and so is the request field.
* SQLite integers are modelled by `Int`, without the 64-bit range, except in
  `daily_reading.pages_read`: that column is the result of additions of numbers
  chosen by the requests, and is modelled with SQLite's 64-bit integers and
  doubles (section "Numbers between JavaScript and SQLite").
* Each handler reads the wall clock through `new Date()` (and SQLite through
  `CURRENT_TIMESTAMP`); the readings made by one request are the `Clock`
  argument of the operation.
* The surrogate `id` columns of `daily_reading` and `annual_stats` are never
  read by any query and are left out; rows of these tables are identified by
  their `UNIQUE` key.
* A handler's `err` branch that no constraint of the schema can trigger
  (a failing disk, say) is not modelled.
* A query parameter of `GET /api/media` is a string or absent; text is ordered
  by code points, which is the order of SQLite's `BINARY` collation.
-/

namespace MediaDiary

/-! ## Data model (the `CREATE TABLE` statements of `initializeDatabase`) -/

/-- The columns of `users` that the modelled queries read. -/
structure User where
  id : Nat
  username : String
  profile_picture : Option String
  deriving DecidableEq

/-- A row of `media_items`. -/
structure MediaItem where
  id : Nat
  user_id : Nat
  title : String
  type : String
  status : String
  rating : Option Int
  review : Option String
  release_date : Option String
  pages_read : Option Int
  total_pages : Option Int
  is_finished : Bool
  date_added : String
  date_completed : Option String
  deriving DecidableEq

/-- A row of `daily_reading`, keyed by `(user_id, date)`. The column
`pages_read` holds a number: `pages_read` is its value and `pages_real` tells
whether SQLite holds it with storage class `REAL` rather than `INTEGER`. -/
structure DailyReading where
  user_id : Nat
  date : String
  pages_read : Int
  pages_real : Bool
  deriving DecidableEq

/-- A row of `annual_stats`, keyed by `(user_id, year)`. -/
structure AnnualStats where
  user_id : Nat
  year : Nat
  books_read : Int
  comics_read : Int
  movies_watched : Int
  tv_shows_finished : Int
  deriving DecidableEq

/-- The four counter columns of `annual_stats`. -/
inductive Column where
  | books_read
  | comics_read
  | movies_watched
  | tv_shows_finished
  deriving DecidableEq

/-- The database. `media_seq` is the `sqlite_sequence` entry of `media_items`
(`AUTOINCREMENT`): the largest id ever handed out. -/
structure Store where
  users : List User
  media_items : List MediaItem
  media_seq : Nat
  daily_reading : List DailyReading
  annual_stats : List AnnualStats
  deriving DecidableEq

/-- What one request reads from the clock: `new Date().toISOString()`, its date
part `.split('T')[0]`, `new Date().getFullYear()` and SQLite's
`CURRENT_TIMESTAMP`. -/
structure Clock where
  iso : String
  today : String
  year : Nat
  current_timestamp : String
  deriving DecidableEq

/-- The HTTP error statuses the handlers answer with. -/
inductive ApiError where
  | badRequest
  | notFound
  | serverError
  deriving DecidableEq

/-- The status code of an error. -/
def ApiError.code : ApiError → Nat
  | .badRequest => 400
  | .notFound => 404
  | .serverError => 500

/-- Body of `POST /api/media`. -/
structure NewItemBody where
  title : Option String
  type : Option String
  status : Option String
  rating : Option Int
  review : Option String
  release_date : Option String
  total_pages : Option Int
  deriving DecidableEq

/-- Body of `PUT /api/media/:id`. -/
structure UpdateBody where
  title : Option String
  type : Option String
  status : Option String
  rating : Option Int
  review : Option String
  release_date : Option String
  pages_read : Option Int
  is_finished : Bool
  deriving DecidableEq

/-- An entry of the daily reading leaderboard; `pages_read` is a JavaScript
number, given by the integer it denotes. -/
structure DailyEntry where
  username : String
  profile_picture : Option String
  pages_read : Int
  deriving DecidableEq

/-- An entry of an annual leaderboard. -/
structure AnnualEntry where
  username : String
  profile_picture : Option String
  count : Int
  deriving DecidableEq

/-! ## Annual statistics (`updateAnnualStats`) -/

/-- Reads a counter column of a row. -/
def AnnualStats.get (r : AnnualStats) : Column → Int
  | .books_read => r.books_read
  | .comics_read => r.comics_read
  | .movies_watched => r.movies_watched
  | .tv_shows_finished => r.tv_shows_finished

/-- The assignment `SET col = col + 1`. -/
def AnnualStats.increment (r : AnnualStats) : Column → AnnualStats
  | .books_read => { r with books_read := r.books_read + 1 }
  | .comics_read => { r with comics_read := r.comics_read + 1 }
  | .movies_watched => { r with movies_watched := r.movies_watched + 1 }
  | .tv_shows_finished => { r with tv_shows_finished := r.tv_shows_finished + 1 }

/-- The row `INSERT INTO annual_stats (user_id, year, col) VALUES (?, ?, 1)`
creates: the other counters take their `DEFAULT 0`. -/
def AnnualStats.fresh (userId year : Nat) : Column → AnnualStats
  | .books_read => ⟨userId, year, 1, 0, 0, 0⟩
  | .comics_read => ⟨userId, year, 0, 1, 0, 0⟩
  | .movies_watched => ⟨userId, year, 0, 0, 1, 0⟩
  | .tv_shows_finished => ⟨userId, year, 0, 0, 0, 1⟩

/-- The `switch (mediaType)` of `updateAnnualStats`; `none` is its `default:`
branch. -/
def columnOfType (mediaType : String) : Option Column :=
  if mediaType = "book" then some .books_read
  else if mediaType = "comic" then some .comics_read
  else if mediaType = "movie" then some .movies_watched
  else if mediaType = "tv" then some .tv_shows_finished
  else none

/-- The statement `INSERT ... ON CONFLICT(user_id, year) DO UPDATE SET col = col + 1`
on the table `annual_stats`. -/
def upsertAnnual (userId year : Nat) (col : Column) (rows : List AnnualStats) :
    List AnnualStats :=
  if rows.any (fun r => r.user_id = userId ∧ r.year = year) then
    rows.map (fun r => if r.user_id = userId ∧ r.year = year then r.increment col else r)
  else
    rows ++ [AnnualStats.fresh userId year col]

/-- The function `updateAnnualStats(userId, mediaType)`, on the table. -/
def updateAnnualStats (c : Clock) (userId : Nat) (mediaType : String)
    (rows : List AnnualStats) : List AnnualStats :=
  match columnOfType mediaType with
  | some col => upsertAnnual userId c.year col rows
  | none => rows

/-! ## Media items -/

/-- Handler of `POST /api/media`: one `INSERT`, which the `NOT NULL` constraints
on `title`, `type` and `status` reject with status 500. Returns the new id. -/
def addItem (c : Clock) (user : Nat) (b : NewItemBody) (s : Store) :
    Except ApiError (Nat × Store) :=
  match b.title, b.type, b.status with
  | some title, some type, some status =>
    let id := s.media_seq + 1
    let item : MediaItem :=
      { id := id, user_id := user, title := title, type := type, status := status,
        rating := b.rating, review := b.review, release_date := b.release_date,
        pages_read := some 0, total_pages := b.total_pages, is_finished := false,
        date_added := c.current_timestamp, date_completed := none }
    .ok (id, { s with media_items := s.media_items ++ [item], media_seq := id })
  | _, _, _ => .error .serverError

/-- The query `SELECT * FROM media_items WHERE id = ? AND user_id = ?`. -/
def findOwned (user id : Nat) (items : List MediaItem) : Option MediaItem :=
  items.find? (fun it => it.id = id ∧ it.user_id = user)

/-- The value the handler computes for `date_completed`. -/
def completionDate (c : Clock) (item : MediaItem) (b : UpdateBody) : Option String :=
  let wasNotFinished := !item.is_finished
  let nowFinished := b.is_finished
  if nowFinished && wasNotFinished then some c.iso else item.date_completed

/-- The `SET` clause of the handler's `UPDATE media_items`, on one row. -/
def setFields (it : MediaItem) (title type status : String) (b : UpdateBody)
    (date_completed : Option String) : MediaItem :=
  { it with title := title, type := type, status := status, rating := b.rating,
            review := b.review, release_date := b.release_date,
            pages_read := b.pages_read, is_finished := b.is_finished,
            date_completed := date_completed }

/-- The table `media_items` after the handler's
`UPDATE media_items SET ... WHERE id = ? AND user_id = ?`. -/
def updatedItems (user id : Nat) (title type status : String) (b : UpdateBody)
    (date_completed : Option String) (items : List MediaItem) : List MediaItem :=
  items.map (fun it =>
    if it.id = id ∧ it.user_id = user then setFields it title type status b date_completed
    else it)

/-- Handler of `PUT /api/media/:id`. -/
def updateItem (c : Clock) (user id : Nat) (b : UpdateBody) (s : Store) :
    Except ApiError Store :=
  match findOwned user id s.media_items with
  | none => .error .notFound
  | some item =>
    let wasNotFinished := !item.is_finished
    let nowFinished := b.is_finished
    let date_completed := completionDate c item b
    match b.title, b.type, b.status with
    | some title, some type, some status =>
      let items := updatedItems user id title type status b date_completed s.media_items
      let stats :=
        if nowFinished && wasNotFinished then updateAnnualStats c user item.type s.annual_stats
        else s.annual_stats
      .ok { s with media_items := items, annual_stats := stats }
    | _, _, _ => .error .serverError

/-- Handler of `DELETE /api/media/:id`: always answers with success. -/
def deleteItem (user id : Nat) (s : Store) : Store :=
  { s with media_items := s.media_items.filter (fun it => !(it.id = id ∧ it.user_id = user)) }

/-! ## Numbers between JavaScript and SQLite

A JSON number reaches the handler as a JavaScript number, a double. The SQLite
binding hands it to SQLite as an `INTEGER` when it is a 32-bit integer and as a
`REAL` otherwise. SQLite adds two `INTEGER`s exactly in 64 bits and falls back
to doubles when that overflows or when an operand is a `REAL`, and a column of
`INTEGER` affinity stores a `REAL` as an `INTEGER` when the value is an integer
strictly inside the 64-bit range. All numbers that arise here are integers, so a
double is given by the integer it denotes. -/

/-- The `pages` of a request: a JSON integer that fits 64 bits. Such a literal
has at most 19 digits, and JavaScript reads it as the double nearest to it.
Other values of `pages` (a fraction, a string, a longer integer, none at all)
are not modelled. -/
abbrev PageDelta := { n : Int // -(2 ^ 63) ≤ n ∧ n < 2 ^ 63 }

/-- The multiple of `m` nearest to `a`, the even multiple when `a` is halfway
between two. -/
def roundHalfEven (a m : Nat) : Nat :=
  let q := a / m
  let r := a % m
  if 2 * r > m ∨ (2 * r = m ∧ q % 2 = 1) then (q + 1) * m else q * m

/-- The double nearest to the natural number `a`, searching from exponent `e`:
below `2 ^ (53 + e)` the doubles are the multiples of `2 ^ e`. -/
def roundNatFrom : Nat → Nat → Nat → Nat
  | 0, _, a => a
  | fuel + 1, e, a =>
    if a < 2 ^ (53 + e) then roundHalfEven a (2 ^ e) else roundNatFrom fuel (e + 1) a

/-- The double nearest to the integer `n` (round to nearest, ties to even), as
JSON parsing and the conversion of a 64-bit integer to a double produce it. The
search covers every finite double; the integers that arise stay far below the
largest one. -/
def roundDouble (n : Int) : Int :=
  if 0 ≤ n then (roundNatFrom 1024 0 n.toNat : Nat)
  else -((roundNatFrom 1024 0 (-n).toNat : Nat) : Int)

/-- A number as SQLite holds it: its storage class, `REAL` or `INTEGER`, and its
value. -/
structure SqlNumber where
  real : Bool
  value : Int
  deriving DecidableEq

/-- The parameter the SQLite binding makes of the JavaScript number `v`: an
`INTEGER` when `v` is a 32-bit integer, a `REAL` otherwise. -/
def bindNumber (v : Int) : SqlNumber :=
  if -(2 ^ 31) ≤ v ∧ v < 2 ^ 31 then ⟨false, v⟩ else ⟨true, v⟩

/-- The value of a number as a double. -/
def realValue (x : SqlNumber) : Int :=
  if x.real then x.value else roundDouble x.value

/-- The SQL expression `a + b` on numbers. -/
def sqlAdd (a b : SqlNumber) : SqlNumber :=
  if (!a.real && !b.real) ∧ (-(2 ^ 63) ≤ a.value + b.value ∧ a.value + b.value < 2 ^ 63) then
    ⟨false, a.value + b.value⟩
  else
    ⟨true, roundDouble (realValue a + realValue b)⟩

/-- What a column of `INTEGER` affinity stores for the number `x`. -/
def integerAffinity (x : SqlNumber) : SqlNumber :=
  if x.real = true ∧ -(2 ^ 63) < x.value ∧ x.value < 2 ^ 63 - 1 then ⟨false, x.value⟩ else x

/-! ## Daily reading -/

/-- The number in the column `pages_read` of a row. -/
def DailyReading.number (r : DailyReading) : SqlNumber :=
  ⟨r.pages_real, r.pages_read⟩

/-- The row `r` with the number `n` in its column `pages_read`. -/
def DailyReading.setNumber (r : DailyReading) (n : SqlNumber) : DailyReading :=
  { r with pages_read := n.value, pages_real := n.real }

/-- Handler of `POST /api/reading/daily`: the statement
`INSERT ... ON CONFLICT(user_id, date) DO UPDATE SET pages_read = pages_read + ?`,
both parameters being the bound `pages`. -/
def addDailyPages (c : Clock) (user : Nat) (pages : PageDelta) (s : Store) : Store :=
  let bound := bindNumber (roundDouble pages.val)
  let rows := s.daily_reading
  let rows :=
    if rows.any (fun r => r.user_id = user ∧ r.date = c.today) then
      rows.map (fun r =>
        if r.user_id = user ∧ r.date = c.today then
          r.setNumber (integerAffinity (sqlAdd r.number bound))
        else r)
    else
      rows ++ [⟨user, c.today, (integerAffinity bound).value, (integerAffinity bound).real⟩]
  { s with daily_reading := rows }

/-- The numbers that the column `pages_read` of `daily_reading` holds after the
modelled requests: an `INTEGER` is a 64-bit integer; a `REAL` is a double that
the `INTEGER` affinity of the column leaves as it is; and either stays within
`2 ^ 120` in magnitude, far below the largest double. -/
def SqlNumber.Storable (x : SqlNumber) : Prop :=
  (x.real = false → -(2 ^ 63) ≤ x.value ∧ x.value < 2 ^ 63) ∧
  (x.real = true → roundDouble x.value = x.value ∧
    ¬ (-(2 ^ 63) < x.value ∧ x.value < 2 ^ 63 - 1)) ∧
  -(2 ^ 120) ≤ x.value ∧ x.value ≤ 2 ^ 120

/-- Every `pages_read` of `daily_reading` is a number that SQLite can hold
there. -/
def Store.DailyNumbers (s : Store) : Prop :=
  ∀ r ∈ s.daily_reading, r.number.Storable

/-! ## Leaderboards -/

/-- The clause `ORDER BY key DESC`. SQL leaves the order of rows with equal keys
open; this model keeps them in their order of arrival. -/
def orderByDesc {α : Type} (key : α → Int) (l : List α) : List α :=
  l.insertionSort (fun a b => key b ≤ key a)

/-- Handler of `GET /api/leaderboard/daily-reading`. The rows are ordered by the
stored value of `pages_read`; in the answer each value is a JavaScript number,
the double nearest to it. -/
def dailyReadingLeaderboard (c : Clock) (s : Store) : List DailyEntry :=
  let joined := (s.daily_reading.filter (fun dr => dr.date = c.today)).flatMap (fun dr =>
    (s.users.filter (fun u => dr.user_id = u.id)).map (fun u => (u, dr)))
  (orderByDesc (fun row => row.2.pages_read) joined).map (fun row =>
    (⟨row.1.username, row.1.profile_picture, roundDouble row.2.pages_read⟩ : DailyEntry))

/-- The list `validCategories`. -/
def validCategories : List String :=
  ["books_read", "comics_read", "movies_watched", "tv_shows_finished"]

/-- The column that the interpolation of a valid `category` into the query
names. -/
def columnOfCategory (category : String) : Column :=
  if category = "books_read" then .books_read
  else if category = "comics_read" then .comics_read
  else if category = "movies_watched" then .movies_watched
  else .tv_shows_finished

/-- Handler of `GET /api/leaderboard/annual/:category`. -/
def annualLeaderboard (c : Clock) (category : String) (s : Store) :
    Except ApiError (List AnnualEntry) :=
  if !validCategories.contains category then .error .badRequest
  else
    let col := columnOfCategory category
    let joined := (s.annual_stats.filter (fun a => a.year = c.year)).flatMap (fun a =>
      (s.users.filter (fun u => a.user_id = u.id)).map (fun u =>
        (⟨u.username, u.profile_picture, a.get col⟩ : AnnualEntry)))
    .ok (orderByDesc AnnualEntry.count joined)

/-! ## Sequences of requests -/

/-- A state-changing request of the modelled interface, with the clock readings
it makes and the authenticated user. -/
inductive Request where
  | addItem (c : Clock) (user : Nat) (b : NewItemBody)
  | updateItem (c : Clock) (user id : Nat) (b : UpdateBody)
  | deleteItem (user id : Nat)
  | addDailyPages (c : Clock) (user : Nat) (pages : PageDelta)
  deriving DecidableEq

/-- The store after a request; a request answered with an error leaves it as it
was. -/
def step (s : Store) : Request → Store
  | .addItem c user b =>
    match addItem c user b s with
    | .ok (_, s') => s'
    | .error _ => s
  | .updateItem c user id b =>
    match updateItem c user id b s with
    | .ok s' => s'
    | .error _ => s
  | .deleteItem user id => deleteItem user id s
  | .addDailyPages c user pages => addDailyPages c user pages s

/-- The store after a sequence of requests. -/
def run (s : Store) (reqs : List Request) : Store :=
  reqs.foldl step s

/-- The store with the given users and no media item, reading or statistic. -/
def emptyStore (users : List User) : Store :=
  { users := users, media_items := [], media_seq := 0, daily_reading := [], annual_stats := [] }

/-! ## Sample data -/

/-- A clock reading on 6 November 2026 with the given ISO timestamp. -/
def clockAt (iso : String) : Clock := ⟨iso, "2026-11-06", 2026, "2026-11-06 09:00:00"⟩

/-- A request body adding the book "Dune" to the reading list. -/
def duneBody : NewItemBody :=
  ⟨some "Dune", some "book", some "readlist", none, none, none, some 612⟩

/-- A request body updating "Dune", with the given `is_finished`. -/
def duneUpdate (finished : Bool) : UpdateBody :=
  ⟨some "Dune", some "book", some "read", some 5, none, none, some 612, finished⟩

/-- The row of "Dune" once added by user 1. -/
def duneAdded : MediaItem :=
  ⟨1, 1, "Dune", "book", "readlist", none, none, none, some 0, some 612, false,
    "2026-11-06 09:00:00", none⟩

/-- The row of "Dune" once finished at `t1`. -/
def duneFinished : MediaItem :=
  ⟨1, 1, "Dune", "book", "read", some 5, none, none, some 612, some 612, true,
    "2026-11-06 09:00:00", some "t1"⟩

/-- User 1 has added one book. -/
def oneBook : Store := run (emptyStore [⟨1, "ann", none⟩]) [.addItem (clockAt "t0") 1 duneBody]

/-- User 1 has added one book and finished it. -/
def finishedBook : Store := run oneBook [.updateItem (clockAt "t1") 1 1 (duneUpdate true)]

/-- User 1 has added one book, finished it and unfinished it. -/
def unfinishedBook : Store :=
  run finishedBook [.updateItem (clockAt "t2") 1 1 (duneUpdate false)]

/-- User 1 has added one book, finished it, unfinished it and finished it again. -/
def refinishedBook : Store :=
  run unfinishedBook [.updateItem (clockAt "t3") 1 1 (duneUpdate true)]

/-- A request body adding the book "Emma" to the reading list. -/
def emmaBody : NewItemBody :=
  ⟨some "Emma", some "book", some "readlist", none, none, none, none⟩

/-- A request body updating "Emma", with the given `is_finished`. -/
def emmaUpdate (finished : Bool) : UpdateBody :=
  ⟨some "Emma", some "book", some "read", none, none, none, none, finished⟩

/-- The row of "Emma" once added by user 1 as the second item. -/
def emmaAdded : MediaItem :=
  ⟨2, 1, "Emma", "book", "readlist", none, none, none, some 0, none, false,
    "2026-11-06 09:00:00", none⟩

/-- User 1 has added two books. -/
def twoBooks : Store := run oneBook [.addItem (clockAt "t0") 1 emmaBody]

/-- Two updates, finishing the two books of user 1. -/
def finishBoth : List (Clock × Nat × UpdateBody) :=
  [(clockAt "t1", 1, duneUpdate true), (clockAt "t2", 2, emmaUpdate true)]

/-- Users 2 and 3 have reported pages today: user 2 first 20, then 15. -/
def readingDay : Store :=
  run (emptyStore [⟨2, "bob", none⟩, ⟨3, "cy", some "/uploads/cy.png"⟩])
    [.addDailyPages (clockAt "t1") 2 ⟨20, by decide⟩,
      .addDailyPages (clockAt "t2") 3 ⟨30, by decide⟩,
      .addDailyPages (clockAt "t3") 2 ⟨15, by decide⟩]

/-- Users 2 and 3 have statistics for 2026, user 3 also for 2025. -/
def statsYear : Store :=
  { users := [⟨2, "bob", none⟩, ⟨3, "cy", some "/uploads/cy.png"⟩], media_items := [],
    media_seq := 0, daily_reading := [],
    annual_stats := [⟨2, 2026, 1, 0, 4, 0⟩, ⟨3, 2025, 9, 9, 9, 9⟩, ⟨3, 2026, 3, 0, 0, 2⟩] }

/-- A request body adding an untitled podcast with an empty status. -/
def podcastBody : NewItemBody :=
  ⟨some "", some "podcast", some "", none, none, none, none⟩

/-- A request body for a book without a title. -/
def untitledBody : NewItemBody :=
  ⟨none, some "book", some "readlist", none, none, none, none⟩

/-- User 1 has reported 0 pages today and has finished one book. -/
def zeroDay : Store :=
  run finishedBook [.addDailyPages (clockAt "t2") 1 ⟨0, by decide⟩]

/-- The movie "Alien", to be added to the watch list with a rating. -/
def alienBody : NewItemBody :=
  ⟨some "Alien", some "movie", some "watchlist", some 4, none, some "1979-05-25", none⟩

/-- User 1 has added "Dune" and "Emma", user 2 has added "Alien", and user 1 has
added an untitled podcast. -/
def library : Store :=
  run (emptyStore [⟨1, "ann", none⟩, ⟨2, "bob", none⟩])
    [.addItem (clockAt "t0") 1 duneBody, .addItem (clockAt "t0") 1 emmaBody,
      .addItem (clockAt "t0") 2 alienBody, .addItem (clockAt "t0") 1 podcastBody]

/-- A request body that finishes "Dune" and turns it into a movie. -/
def duneAsMovie : UpdateBody :=
  ⟨some "Dune", some "movie", some "watched", some 5, none, none, some 612, true⟩

/-- A request body that finishes the untitled podcast and turns it into a book. -/
def podcastAsBook : UpdateBody :=
  ⟨some "", some "book", some "read", none, none, none, none, true⟩

/-! ## Schema constraints and observations -/

/-- The constraints the schema puts on a store: ids of `media_items` come from
the `AUTOINCREMENT` sequence and are a primary key, and `(user_id, date)` and
`(user_id, year)` are `UNIQUE` in `daily_reading` and `annual_stats`. -/
structure Store.WF (s : Store) : Prop where
  media_seq_bound : ∀ it ∈ s.media_items, it.id ≤ s.media_seq
  media_pk : (s.media_items.map (·.id)).Nodup
  daily_unique : ∀ u d,
    (s.daily_reading.filter (fun r => r.user_id = u ∧ r.date = d)).length ≤ 1
  annual_unique : ∀ u y,
    (s.annual_stats.filter (fun r => r.user_id = u ∧ r.year = y)).length ≤ 1

/-- The value of a counter of `(user, year)` in the table `annual_stats`: the
sum over the rows with that key, so 0 when there is no such row. -/
def annualCount (rows : List AnnualStats) (user year : Nat) (col : Column) : Int :=
  ((rows.filter (fun r => r.user_id = user ∧ r.year = year)).map (·.get col)).sum

/-- Whether item `id` is stored with `is_finished` true. -/
def finishedIn (s : Store) (id : Nat) : Bool :=
  s.media_items.any (fun it => it.id = id ∧ it.is_finished = true)

/-- Whether item `id` is stored with `is_finished` true in `s` or in one of the
stores that the requests `reqs` lead through from `s`. -/
def everFinished (s : Store) : List Request → Nat → Bool
  | [], id => finishedIn s id
  | r :: reqs, id => finishedIn s id || everFinished (step s r) reqs id

/-- In a store, a finished item has a completion date. -/
def FinishedHaveDate (s : Store) : Prop :=
  ∀ it ∈ s.media_items, it.is_finished = true → it.date_completed ≠ none

/-! ## Listing items (`GET /api/media`) -/

/-- The query string of `GET /api/media`; a parameter that is absent is `none`. -/
structure ListQuery where
  status : Option String
  type : Option String
  sort_by : Option String
  sort_order : Option String
  deriving DecidableEq

/-- The test `if (param)` on a query parameter: absent and empty are falsy. -/
def truthy (param : Option String) : Bool :=
  match param with
  | some v => v ≠ ""
  | none => false

/-- The condition `AND column = ?` that the handler appends when the parameter is
truthy; without it every row passes. -/
def matchesParam (param : Option String) (value : String) : Bool :=
  if truthy param then param = some value else true

/-- The list `validSortFields`. -/
def validSortFields : List String :=
  ["date_added", "release_date", "rating", "title"]

/-- The constant `sortField`: `sort_by` (by default `date_added`) when it is a
valid sort field, `date_added` otherwise. -/
def sortFieldOf (sort_by : Option String) : String :=
  let sort_by := sort_by.getD "date_added"
  if validSortFields.contains sort_by then sort_by else "date_added"

/-- The test `s.toUpperCase() === 'ASC'`. JavaScript upper-cases code point by
code point with the Unicode case mappings. The code points whose upper case is
`A`, `S`, `C` are `a A`, `s S` and U+017F (long s), and `c C`; no code point has
an upper case made of several of these letters. So the upper case of `s` is `ASC`
exactly when `s` has three code points, taken from these three sets in turn. -/
def upperCaseIsASC (s : String) : Bool :=
  match s.data with
  | [a, b, c] =>
    (a = 'a' ∨ a = 'A') ∧ (b = 's' ∨ b = 'S' ∨ b = Char.ofNat 0x17F) ∧ (c = 'c' ∨ c = 'C')
  | _ => false

/-- Whether `order` is `ASC`: `sort_order.toUpperCase() === 'ASC'`, with
`sort_order` by default `DESC`. -/
def isAscending (sort_order : Option String) : Bool :=
  upperCaseIsASC (sort_order.getD "DESC")

/-- SQLite's `BINARY` collation on lists of code points: the lexicographic
order, a proper prefix coming first. -/
def lexLe : List Nat → List Nat → Bool
  | [], _ => true
  | _ :: _, [] => false
  | a :: as, b :: bs => decide (a < b) || (decide (a = b) && lexLe as bs)

/-- The order of two `TEXT` values under `ORDER BY ... ASC`. -/
def textLe (a b : String) : Bool :=
  lexLe (a.data.map Char.toNat) (b.data.map Char.toNat)

/-- The order of two nullable values under `ORDER BY ... ASC`: `NULL` comes
before every value. -/
def nullsFirstLe {α : Type} (le : α → α → Bool) : Option α → Option α → Bool
  | none, _ => true
  | some _, none => false
  | some a, some b => le a b

/-- Whether `a` may come before `b` under `ORDER BY field ASC`, for a valid sort
field (`date_added` being the last case). -/
def fieldLe (field : String) (a b : MediaItem) : Bool :=
  if field = "release_date" then nullsFirstLe textLe a.release_date b.release_date
  else if field = "rating" then nullsFirstLe (fun x y => decide (x ≤ y)) a.rating b.rating
  else if field = "title" then textLe a.title b.title
  else textLe a.date_added b.date_added

/-- The clause `ORDER BY field ASC` or `ORDER BY field DESC`. SQL leaves the
order of rows with equal keys open; this model keeps them in table order. -/
def orderBy {α : Type} (le : α → α → Bool) (ascending : Bool) (l : List α) : List α :=
  if ascending then l.insertionSort (fun a b => le a b = true)
  else l.insertionSort (fun a b => le b a = true)

/-- Handler of `GET /api/media`. -/
def listItems (user : Nat) (q : ListQuery) (s : Store) : List MediaItem :=
  let rows := s.media_items.filter (fun it =>
    decide (it.user_id = user) && matchesParam q.status it.status && matchesParam q.type it.type)
  orderBy (fieldLe (sortFieldOf q.sort_by)) (isAscending q.sort_order) rows

/-! ## The three database calls of `PUT /api/media/:id`

The handler issues `db.get`, then from its callback `db.run`, then from that
callback `updateAnnualStats`; each call is one statement, and statements of
other requests may run between them. -/

/-- The call `db.get('SELECT * FROM media_items WHERE id = ? AND user_id = ?')`. -/
def updateItemRead (user id : Nat) (s : Store) : Option MediaItem :=
  findOwned user id s.media_items

/-- The call `db.run('UPDATE media_items SET ...')`, made with the row `item`
that `db.get` returned. -/
def updateItemWrite (c : Clock) (user id : Nat) (b : UpdateBody) (item : MediaItem)
    (s : Store) : Except ApiError Store :=
  match b.title, b.type, b.status with
  | some title, some type, some status =>
    .ok { s with media_items :=
      updatedItems user id title type status b (completionDate c item b) s.media_items }
  | _, _, _ => .error .serverError

/-- The callback of the `UPDATE`: `updateAnnualStats` if the row `item` that
`db.get` returned was not finished and the request finishes it. -/
def updateItemNotify (c : Clock) (user : Nat) (b : UpdateBody) (item : MediaItem)
    (s : Store) : Store :=
  { s with annual_stats :=
    if b.is_finished && !item.is_finished then
      updateAnnualStats c user item.type s.annual_stats
    else s.annual_stats }

/-! ## Updating an item: basic facts -/

theorem findOwned_some {user id : Nat} {items : List MediaItem} {item : MediaItem}
    (h : findOwned user id items = some item) :
    item ∈ items ∧ item.id = id ∧ item.user_id = user := by
  unfold findOwned at h
  have h1 := List.find?_some h
  have h2 := List.mem_of_find?_eq_some h
  simp at h1
  exact ⟨h2, h1.1, h1.2⟩

theorem findOwned_map {user id : Nat} (f : MediaItem → MediaItem)
    (hid : ∀ it, (f it).id = it.id) (hu : ∀ it, (f it).user_id = it.user_id)
    (items : List MediaItem) :
    findOwned user id (items.map f) = (findOwned user id items).map f := by
  unfold findOwned
  induction items with
  | nil => rfl
  | cons a l ih =>
    simp only [List.map_cons, List.find?_cons, hid, hu]
    split
    · rfl
    · exact ih

theorem updateItem_ok (c : Clock) (user id : Nat) (b : UpdateBody) (s : Store)
    (item : MediaItem) (title type status : String)
    (hfind : findOwned user id s.media_items = some item)
    (ht : b.title = some title) (hty : b.type = some type) (hst : b.status = some status) :
    updateItem c user id b s = .ok
      { s with
        media_items :=
          updatedItems user id title type status b (completionDate c item b) s.media_items
        annual_stats :=
          if b.is_finished && !item.is_finished then
            updateAnnualStats c user item.type s.annual_stats
          else s.annual_stats } := by
  unfold updateItem
  rw [hfind]
  simp only [ht, hty, hst]

theorem findOwned_updatedItems (user id : Nat) (title type status : String) (b : UpdateBody)
    (dc : Option String) (items : List MediaItem) :
    findOwned user id (updatedItems user id title type status b dc items) =
      (findOwned user id items).map (fun it => setFields it title type status b dc) := by
  unfold updatedItems
  rw [findOwned_map _ (by intro it; split <;> rfl) (by intro it; split <;> rfl)]
  cases h : findOwned user id items with
  | none => rfl
  | some it =>
    obtain ⟨-, h1, h2⟩ := findOwned_some h
    simp [h1, h2]

/-! ## The completion rule -/

/-- C1. When `updateItem` is applied to an item the caller owns, with previous
flag `is_finished` and previous `date_completed`, and the row is written (the
three `NOT NULL` fields are supplied), the call succeeds and the stored
`date_completed` is the current timestamp if the item was not finished and the
request finishes it, and the previous value (`NULL` included) otherwise. -/
theorem completion_tracker_rule (c : Clock) (user id : Nat) (b : UpdateBody) (s : Store)
    (item : MediaItem) (title type status : String)
    (hfind : findOwned user id s.media_items = some item)
    (ht : b.title = some title) (hty : b.type = some type) (hst : b.status = some status) :
    ∃ s' item', updateItem c user id b s = .ok s' ∧
      findOwned user id s'.media_items = some item' ∧
      item'.is_finished = b.is_finished ∧
      item'.date_completed =
        if item.is_finished = false ∧ b.is_finished = true then some c.iso
        else item.date_completed := by
  refine ⟨_, setFields item title type status b (completionDate c item b),
    updateItem_ok c user id b s item title type status hfind ht hty hst, ?_, rfl, ?_⟩
  · simp only [findOwned_updatedItems, hfind, Option.map_some']
  · simp only [setFields, completionDate]
    cases item.is_finished <;> cases b.is_finished <;> simp

theorem completion_tracker_rule_witness :
    findOwned 1 1 oneBook.media_items = some duneAdded ∧
    ∃ s' item', updateItem (clockAt "t1") 1 1 (duneUpdate true) oneBook = .ok s' ∧
      findOwned 1 1 s'.media_items = some item' ∧
      item'.is_finished = true ∧ item'.date_completed = some "t1" :=
  ⟨by decide, completion_tracker_rule (clockAt "t1") 1 1 (duneUpdate true) oneBook duneAdded
    "Dune" "book" "read" (by decide) rfl rfl rfl⟩

theorem updateItem_inv {c : Clock} {user id : Nat} {b : UpdateBody} {s s' : Store}
    (h : updateItem c user id b s = .ok s') :
    ∃ item title type status, findOwned user id s.media_items = some item ∧
      b.title = some title ∧ b.type = some type ∧ b.status = some status ∧
      s' = { s with
        media_items :=
          updatedItems user id title type status b (completionDate c item b) s.media_items
        annual_stats :=
          if b.is_finished && !item.is_finished then
            updateAnnualStats c user item.type s.annual_stats
          else s.annual_stats } := by
  cases hf : findOwned user id s.media_items with
  | none => simp [updateItem, hf] at h
  | some item =>
    cases ht : b.title with
    | none => simp [updateItem, hf, ht] at h
    | some title =>
      cases hty : b.type with
      | none => simp [updateItem, hf, ht, hty] at h
      | some type =>
        cases hst : b.status with
        | none => simp [updateItem, hf, ht, hty, hst] at h
        | some status =>
          rw [updateItem_ok c user id b s item title type status hf ht hty hst] at h
          exact ⟨item, title, type, status, rfl, rfl, rfl, rfl, (Except.ok.inj h).symm⟩

/-- C2. No double count. A successful `updateItem` on an item whose stored
`is_finished` is already true leaves the whole table `annual_stats` as it was;
and whenever a successful `updateItem` changes `annual_stats`, the stored item
was not finished and the request finishes it. -/
theorem no_double_count (c : Clock) (user id : Nat) (b : UpdateBody) (s s' : Store)
    (hok : updateItem c user id b s = .ok s') :
    (∀ item, findOwned user id s.media_items = some item → item.is_finished = true →
        s'.annual_stats = s.annual_stats) ∧
    (s'.annual_stats ≠ s.annual_stats →
        ∃ item, findOwned user id s.media_items = some item ∧
          item.is_finished = false ∧ b.is_finished = true) := by
  obtain ⟨item, title, type, status, hf, -, -, -, rfl⟩ := updateItem_inv hok
  constructor
  · intro item' hf' hfin
    rw [hf] at hf'
    cases hf'
    simp [hfin]
  · intro hne
    refine ⟨item, hf, ?_⟩
    cases h1 : item.is_finished <;> cases h2 : b.is_finished <;> simp [h1, h2] at hne ⊢

theorem no_double_count_witness :
    updateItem (clockAt "t2") 1 1 (duneUpdate true) finishedBook = .ok
        (run finishedBook [.updateItem (clockAt "t2") 1 1 (duneUpdate true)]) ∧
      (run finishedBook [.updateItem (clockAt "t2") 1 1 (duneUpdate true)]).annual_stats =
        finishedBook.annual_stats :=
  ⟨rfl, (no_double_count (clockAt "t2") 1 1 (duneUpdate true) finishedBook _ rfl).1
    duneFinished (by decide) rfl⟩

/-! ## Annual statistics -/

theorem increment_get (r : AnnualStats) (col : Column) :
    (r.increment col).get col = r.get col + 1 ∧
    (∀ col', col' ≠ col → (r.increment col).get col' = r.get col') ∧
    (r.increment col).user_id = r.user_id ∧ (r.increment col).year = r.year := by
  cases col <;> refine ⟨rfl, ?_, rfl, rfl⟩ <;> intro col' h <;> cases col' <;> first | rfl | exact absurd rfl h

theorem fresh_get (userId year : Nat) (col : Column) :
    (AnnualStats.fresh userId year col).get col = 1 ∧
    (∀ col', col' ≠ col → (AnnualStats.fresh userId year col).get col' = 0) ∧
    (AnnualStats.fresh userId year col).user_id = userId ∧
    (AnnualStats.fresh userId year col).year = year := by
  cases col <;> refine ⟨rfl, ?_, rfl, rfl⟩ <;> intro col' h <;> cases col' <;> first | rfl | exact absurd rfl h

theorem filter_map_ite_pos {α : Type} (p : α → Prop) [DecidablePred p] (f : α → α)
    (hf : ∀ a, p a → p (f a)) (l : List α) :
    (l.map (fun a => if p a then f a else a)).filter (fun a => decide (p a)) =
      (l.filter (fun a => decide (p a))).map f := by
  induction l with
  | nil => rfl
  | cons a l ih =>
    by_cases ha : p a
    · have hfa := hf a ha
      simp [List.filter_cons, ha, hfa, ih]
    · simp [List.filter_cons, ha, ih]

theorem filter_map_ite_neg {α : Type} (p : α → Prop) [DecidablePred p] (f : α → α)
    (hf : ∀ a, p a → p (f a)) (l : List α) :
    (l.map (fun a => if p a then f a else a)).filter (fun a => !decide (p a)) =
      l.filter (fun a => !decide (p a)) := by
  induction l with
  | nil => rfl
  | cons a l ih =>
    by_cases ha : p a
    · have hfa := hf a ha
      simp [List.filter_cons, ha, hfa, ih]
    · simp [List.filter_cons, ha, ih]

theorem any_eq_false_iff_filter {α : Type} (p : α → Prop) [DecidablePred p] (l : List α) :
    l.any (fun a => decide (p a)) = false ↔ l.filter (fun a => decide (p a)) = [] := by
  simp [List.filter_eq_nil_iff]

theorem upsertAnnual_filter_key (userId year : Nat) (col : Column) (rows : List AnnualStats) :
    (upsertAnnual userId year col rows).filter (fun r => r.user_id = userId ∧ r.year = year) =
      if rows.filter (fun r => r.user_id = userId ∧ r.year = year) = [] then
        [AnnualStats.fresh userId year col]
      else (rows.filter (fun r => r.user_id = userId ∧ r.year = year)).map (·.increment col) := by
  unfold upsertAnnual
  by_cases h : rows.any (fun r => decide (r.user_id = userId ∧ r.year = year)) = true
  · have hne : rows.filter (fun r => decide (r.user_id = userId ∧ r.year = year)) ≠ [] := by
      intro he
      rw [← any_eq_false_iff_filter, h] at he
      cases he
    rw [if_pos h, if_neg hne]
    exact filter_map_ite_pos (fun r : AnnualStats => r.user_id = userId ∧ r.year = year) _
      (fun a ha => by
        show (a.increment col).user_id = userId ∧ (a.increment col).year = year
        rw [(increment_get a col).2.2.1, (increment_get a col).2.2.2]; exact ha) rows
  · have he : rows.filter (fun r => decide (r.user_id = userId ∧ r.year = year)) = [] := by
      rw [← any_eq_false_iff_filter]
      simpa using h
    rw [if_neg h, if_pos he, List.filter_append, he]
    simp [(fresh_get userId year col).2.2.1, (fresh_get userId year col).2.2.2]

theorem upsertAnnual_filter_other (userId year : Nat) (col : Column) (rows : List AnnualStats) :
    (upsertAnnual userId year col rows).filter (fun r => !(r.user_id = userId ∧ r.year = year)) =
      rows.filter (fun r => !(r.user_id = userId ∧ r.year = year)) := by
  unfold upsertAnnual
  split
  · exact filter_map_ite_neg (fun r : AnnualStats => r.user_id = userId ∧ r.year = year) _
      (fun a ha => by
        show (a.increment col).user_id = userId ∧ (a.increment col).year = year
        rw [(increment_get a col).2.2.1, (increment_get a col).2.2.2]; exact ha) rows
  · rw [List.filter_append]
    simp [(fresh_get userId year col).2.2.1, (fresh_get userId year col).2.2.2]

theorem columnOfType_none (mediaType : String)
    (h : mediaType ∉ ["movie", "tv", "book", "comic"]) : columnOfType mediaType = none := by
  simp only [List.mem_cons, List.mem_singleton, List.mem_nil_iff, or_false, not_or] at h
  simp [columnOfType, h]

/-- C7. `recordCompletion(owner, mediaType)`, the function `updateAnnualStats`:
movie, tv, book and comic select `movies_watched`, `tv_shows_finished`,
`books_read` and `comics_read`; for a selected counter the rows of
`(owner, currentYear)` become the single fresh row (that counter 1, the others
0) when there was none and are incremented otherwise, an increment adding 1 to
that counter and keeping the other three, the user and the year; all rows with
another key are kept; and for every other media type the table is returned as it
was. -/
theorem recordCompletion_spec (c : Clock) (owner : Nat) (rows : List AnnualStats) :
    (columnOfType "movie" = some .movies_watched ∧ columnOfType "tv" = some .tv_shows_finished ∧
      columnOfType "book" = some .books_read ∧ columnOfType "comic" = some .comics_read) ∧
    (∀ mediaType col, columnOfType mediaType = some col →
      (updateAnnualStats c owner mediaType rows).filter
          (fun r => r.user_id = owner ∧ r.year = c.year) =
        (if rows.filter (fun r => r.user_id = owner ∧ r.year = c.year) = [] then
          [AnnualStats.fresh owner c.year col]
        else (rows.filter (fun r => r.user_id = owner ∧ r.year = c.year)).map
          (·.increment col)) ∧
      (updateAnnualStats c owner mediaType rows).filter
          (fun r => !(r.user_id = owner ∧ r.year = c.year)) =
        rows.filter (fun r => !(r.user_id = owner ∧ r.year = c.year))) ∧
    (∀ (r : AnnualStats) col, (r.increment col).get col = r.get col + 1 ∧
      (∀ col', col' ≠ col → (r.increment col).get col' = r.get col') ∧
      (r.increment col).user_id = r.user_id ∧ (r.increment col).year = r.year) ∧
    (∀ col, (AnnualStats.fresh owner c.year col).get col = 1 ∧
      (∀ col', col' ≠ col → (AnnualStats.fresh owner c.year col).get col' = 0) ∧
      (AnnualStats.fresh owner c.year col).user_id = owner ∧
      (AnnualStats.fresh owner c.year col).year = c.year) ∧
    (∀ mediaType, mediaType ∉ ["movie", "tv", "book", "comic"] →
      updateAnnualStats c owner mediaType rows = rows) := by
  refine ⟨⟨by decide, by decide, by decide, by decide⟩, ?_, increment_get, fresh_get owner c.year, ?_⟩
  · intro mediaType col h
    simp only [updateAnnualStats, h]
    exact ⟨upsertAnnual_filter_key owner c.year col rows,
      upsertAnnual_filter_other owner c.year col rows⟩
  · intro mediaType h
    simp only [updateAnnualStats, columnOfType_none mediaType h]

theorem recordCompletion_spec_witness :
    updateAnnualStats (clockAt "t") 1 "book" [⟨1, 2026, 1, 0, 2, 0⟩, ⟨2, 2026, 0, 0, 0, 3⟩] =
        [⟨1, 2026, 2, 0, 2, 0⟩, ⟨2, 2026, 0, 0, 0, 3⟩] ∧
    updateAnnualStats (clockAt "t") 1 "podcast" [⟨1, 2026, 1, 0, 2, 0⟩] =
        [⟨1, 2026, 1, 0, 2, 0⟩] :=
  ⟨by decide, (recordCompletion_spec (clockAt "t") 1 [⟨1, 2026, 1, 0, 2, 0⟩]).2.2.2.2
    "podcast" (by decide)⟩

/-! ## The schema constraints hold in every reachable store -/

theorem upsert_unique {α : Type} (p q : α → Prop) [DecidablePred p] [DecidablePred q]
    (f : α → α) (new : α) (l : List α)
    (hf : ∀ a, q a → (p (f a) ↔ p a)) (hpq : p new → ∀ a, p a → q a)
    (h : (l.filter (fun a => decide (p a))).length ≤ 1) :
    ((if l.any (fun a => decide (q a)) then l.map (fun a => if q a then f a else a)
      else l ++ [new]).filter (fun a => decide (p a))).length ≤ 1 := by
  split
  · rw [List.filter_map]
    have : ((fun a => decide (p a)) ∘ fun a => if q a then f a else a) =
        fun a => decide (p a) := by
      funext a
      by_cases hq : q a
      · simp [hq, hf a hq]
      · simp [hq]
    rw [this, List.length_map]
    exact h
  · rename_i hany
    rw [List.filter_append]
    by_cases hn : p new
    · have he : l.filter (fun a => decide (p a)) = [] := by
        rw [List.filter_eq_nil_iff]
        intro a ha hpa
        apply hany
        rw [List.any_eq_true]
        exact ⟨a, ha, by simpa using hpq hn a (by simpa using hpa)⟩
      simp [he, hn]
    · simpa [hn] using h

theorem wf_emptyStore (users : List User) : (emptyStore users).WF :=
  ⟨by simp [emptyStore], by simp [emptyStore], by simp [emptyStore], by simp [emptyStore]⟩

theorem upsertAnnual_unique (userId year : Nat) (col : Column) (rows : List AnnualStats)
    (h : ∀ u y, (rows.filter (fun r => r.user_id = u ∧ r.year = y)).length ≤ 1) (u y : Nat) :
    ((upsertAnnual userId year col rows).filter (fun r => r.user_id = u ∧ r.year = y)).length
      ≤ 1 := by
  unfold upsertAnnual
  apply upsert_unique (fun r : AnnualStats => r.user_id = u ∧ r.year = y)
    (fun r : AnnualStats => r.user_id = userId ∧ r.year = year)
  · intro a _
    show ((a.increment col).user_id = u ∧ (a.increment col).year = y) ↔ _
    rw [(increment_get a col).2.2.1, (increment_get a col).2.2.2]
  · intro hn a ha
    show a.user_id = userId ∧ a.year = year
    have h1 : (AnnualStats.fresh userId year col).user_id = u ∧
        (AnnualStats.fresh userId year col).year = y := hn
    rw [(fresh_get userId year col).2.2.1, (fresh_get userId year col).2.2.2] at h1
    have h2 : a.user_id = u ∧ a.year = y := ha
    exact ⟨h2.1.trans h1.1.symm, h2.2.trans h1.2.symm⟩
  · exact h u y

theorem updateAnnualStats_unique (c : Clock) (userId : Nat) (mediaType : String)
    (rows : List AnnualStats)
    (h : ∀ u y, (rows.filter (fun r => r.user_id = u ∧ r.year = y)).length ≤ 1) (u y : Nat) :
    ((updateAnnualStats c userId mediaType rows).filter
      (fun r => r.user_id = u ∧ r.year = y)).length ≤ 1 := by
  unfold updateAnnualStats
  split
  · exact upsertAnnual_unique userId c.year _ rows h u y
  · exact h u y

theorem updatedItems_ids (user id : Nat) (title type status : String) (b : UpdateBody)
    (dc : Option String) (items : List MediaItem) :
    (updatedItems user id title type status b dc items).map (·.id) = items.map (·.id) := by
  unfold updatedItems
  rw [List.map_map]
  apply List.map_congr_left
  intro it _
  simp only [Function.comp]
  split <;> rfl

theorem wf_addItem {c : Clock} {user : Nat} {b : NewItemBody} {s s' : Store} {id : Nat}
    (hwf : s.WF) (h : addItem c user b s = .ok (id, s')) : s'.WF := by
  unfold addItem at h
  split at h
  · cases h
    refine ⟨?_, ?_, hwf.daily_unique, hwf.annual_unique⟩
    · intro it hit
      simp only [List.mem_append, List.mem_singleton] at hit
      rcases hit with hit | rfl
      · exact Nat.le_succ_of_le (hwf.media_seq_bound it hit)
      · exact Nat.le_refl _
    · simp only [List.map_append, List.map_cons, List.map_nil]
      rw [List.nodup_append]
      refine ⟨hwf.media_pk, List.nodup_singleton _, ?_⟩
      intro x hx hx'
      simp only [List.mem_singleton] at hx'
      simp only [List.mem_map] at hx
      obtain ⟨it, hit, rfl⟩ := hx
      have := hwf.media_seq_bound it hit
      omega
  · cases h

theorem wf_updateItem {c : Clock} {user id : Nat} {b : UpdateBody} {s s' : Store}
    (hwf : s.WF) (h : updateItem c user id b s = .ok s') : s'.WF := by
  obtain ⟨item, title, type, status, -, -, -, -, rfl⟩ := updateItem_inv h
  refine ⟨?_, ?_, hwf.daily_unique, ?_⟩
  · intro it hit
    have : it.id ∈ (updatedItems user id title type status b (completionDate c item b)
        s.media_items).map (·.id) := List.mem_map_of_mem _ hit
    rw [updatedItems_ids] at this
    obtain ⟨it0, hit0, h0⟩ := List.mem_map.1 this
    have := hwf.media_seq_bound it0 hit0
    simp only at h0 ⊢
    omega
  · simp only [updatedItems_ids]
    exact hwf.media_pk
  · intro u y
    simp only
    split
    · exact updateAnnualStats_unique c user item.type _ hwf.annual_unique u y
    · exact hwf.annual_unique u y

theorem wf_deleteItem (user id : Nat) {s : Store} (hwf : s.WF) : (deleteItem user id s).WF := by
  refine ⟨?_, ?_, hwf.daily_unique, hwf.annual_unique⟩
  · intro it hit
    exact hwf.media_seq_bound it (List.mem_of_mem_filter hit)
  · exact (List.filter_sublist _).map _ |>.nodup hwf.media_pk

theorem wf_addDailyPages (c : Clock) (user : Nat) (pages : PageDelta) {s : Store}
    (hwf : s.WF) :
    (addDailyPages c user pages s).WF := by
  refine ⟨hwf.media_seq_bound, hwf.media_pk, ?_, hwf.annual_unique⟩
  intro u d
  simp only [addDailyPages]
  apply upsert_unique (fun r : DailyReading => r.user_id = u ∧ r.date = d)
    (fun r : DailyReading => r.user_id = user ∧ r.date = c.today)
  · intro a _
    exact Iff.rfl
  · intro hn a ha
    have h1 : user = u ∧ c.today = d := hn
    have h2 : a.user_id = u ∧ a.date = d := ha
    exact ⟨h2.1.trans h1.1.symm, h2.2.trans h1.2.symm⟩
  · exact hwf.daily_unique u d

theorem wf_step {s : Store} (hwf : s.WF) (r : Request) : (step s r).WF := by
  cases r with
  | addItem c user b =>
    simp only [step]
    split
    · rename_i h; exact wf_addItem hwf h
    · exact hwf
  | updateItem c user id b =>
    simp only [step]
    split
    · rename_i h; exact wf_updateItem hwf h
    · exact hwf
  | deleteItem user id => exact wf_deleteItem user id hwf
  | addDailyPages c user pages => exact wf_addDailyPages c user pages hwf

theorem wf_run {s : Store} (hwf : s.WF) (reqs : List Request) : (run s reqs).WF := by
  induction reqs generalizing s with
  | nil => exact hwf
  | cons r reqs ih => exact ih (wf_step hwf r)

/-! ## Finishing, unfinishing and finishing again -/

theorem annualCount_upsertAnnual (userId year : Nat) (col : Column) (rows : List AnnualStats)
    (h : (rows.filter (fun r => r.user_id = userId ∧ r.year = year)).length ≤ 1)
    (col' : Column) :
    annualCount (upsertAnnual userId year col rows) userId year col' =
      annualCount rows userId year col' + if col' = col then 1 else 0 := by
  unfold annualCount
  rw [upsertAnnual_filter_key]
  cases hfl : rows.filter (fun r => decide (r.user_id = userId ∧ r.year = year)) with
  | nil =>
    by_cases hc : col' = col
    · subst hc
      simp [(fresh_get userId year col').1]
    · simp [(fresh_get userId year col).2.1 col' hc, hc]
  | cons r rest =>
    rw [hfl] at h
    have hrest : rest = [] := by
      cases rest with
      | nil => rfl
      | cons _ _ => simp at h
    subst hrest
    by_cases hc : col' = col
    · subst hc
      simp [(increment_get r col').1]
    · simp [(increment_get r col).2.1 col' hc, hc]

theorem addItem_ok (c : Clock) (user : Nat) (b : NewItemBody) (s : Store)
    (title type status : String)
    (ht : b.title = some title) (hty : b.type = some type) (hst : b.status = some status) :
    addItem c user b s = .ok (s.media_seq + 1,
      { s with
        media_items := s.media_items ++
          [{ id := s.media_seq + 1, user_id := user, title := title, type := type,
             status := status, rating := b.rating, review := b.review,
             release_date := b.release_date, pages_read := some 0,
             total_pages := b.total_pages, is_finished := false,
             date_added := c.current_timestamp, date_completed := none }]
        media_seq := s.media_seq + 1 }) := by
  unfold addItem
  simp only [ht, hty, hst]

theorem addItem_inv {c : Clock} {user : Nat} {b : NewItemBody} {s s' : Store} {id : Nat}
    (h : addItem c user b s = .ok (id, s')) :
    ∃ title type status, b.title = some title ∧ b.type = some type ∧ b.status = some status ∧
      id = s.media_seq + 1 ∧
      s' = { s with
        media_items := s.media_items ++
          [{ id := s.media_seq + 1, user_id := user, title := title, type := type,
             status := status, rating := b.rating, review := b.review,
             release_date := b.release_date, pages_read := some 0,
             total_pages := b.total_pages, is_finished := false,
             date_added := c.current_timestamp, date_completed := none }]
        media_seq := s.media_seq + 1 } := by
  cases ht : b.title with
  | none => simp [addItem, ht] at h
  | some title =>
    cases hty : b.type with
    | none => simp [addItem, ht, hty] at h
    | some type =>
      cases hst : b.status with
      | none => simp [addItem, ht, hty, hst] at h
      | some status =>
        rw [addItem_ok c user b s title type status ht hty hst] at h
        have h' := Except.ok.inj h
        exact ⟨title, type, status, rfl, rfl, rfl, (congrArg Prod.fst h').symm,
          (congrArg Prod.snd h').symm⟩

theorem findOwned_append_new (user id : Nat) (items : List MediaItem) (new : MediaItem)
    (hnew : new.id = id ∧ new.user_id = user) (hold : ∀ it ∈ items, it.id ≠ id) :
    findOwned user id (items ++ [new]) = some new := by
  unfold findOwned
  rw [List.find?_append]
  have : items.find? (fun it => decide (it.id = id ∧ it.user_id = user)) = none := by
    rw [List.find?_eq_none]
    intro it hit
    simp [hold it hit]
  rw [this]
  simp [List.find?_cons, hnew.1, hnew.2]

/-- What `updateItem` does to an item the caller owns when the row is written. -/
theorem updateItem_found (c : Clock) (user id : Nat) (b : UpdateBody) (s : Store)
    (item : MediaItem) (title type status : String)
    (hfind : findOwned user id s.media_items = some item)
    (ht : b.title = some title) (hty : b.type = some type) (hst : b.status = some status) :
    ∃ s', updateItem c user id b s = .ok s' ∧
      findOwned user id s'.media_items =
        some (setFields item title type status b (completionDate c item b)) ∧
      s'.annual_stats =
        (if b.is_finished && !item.is_finished then
          updateAnnualStats c user item.type s.annual_stats
        else s.annual_stats) ∧
      (s.WF → s'.WF) := by
  refine ⟨_, updateItem_ok c user id b s item title type status hfind ht hty hst, ?_, rfl, ?_⟩
  · simp only [findOwned_updatedItems, hfind, Option.map_some']
  · intro hwf
    exact wf_updateItem hwf (updateItem_ok c user id b s item title type status hfind ht hty hst)

/-- What `addItem` stores, in a store that satisfies the schema constraints. -/
theorem addItem_found {c : Clock} {user id : Nat} {b : NewItemBody} {s s' : Store}
    (hwf : s.WF) (h : addItem c user b s = .ok (id, s')) :
    ∃ item, findOwned user id s'.media_items = some item ∧
      item.is_finished = false ∧ item.date_completed = none ∧ b.type = some item.type ∧
      s'.annual_stats = s.annual_stats := by
  obtain ⟨title, type, status, -, hty, -, rfl, rfl⟩ := addItem_inv h
  refine ⟨_, findOwned_append_new user (s.media_seq + 1) s.media_items
    { id := s.media_seq + 1, user_id := user, title := title, type := type,
      status := status, rating := b.rating, review := b.review,
      release_date := b.release_date, pages_read := some 0,
      total_pages := b.total_pages, is_finished := false,
      date_added := c.current_timestamp, date_completed := none } ⟨rfl, rfl⟩
    (fun it hit => by have := hwf.media_seq_bound it hit; omega), rfl, rfl, hty, rfl⟩

/-- C3, as the code has it. For an item of a mapped type created by `addItem`,
the three updates `is_finished = true`, `false`, `true` (each written, each
keeping the item's type, all read in the same year) all succeed and trigger the
completion count once per not-finished to finished transition, so twice: the
owner's counter of that type for the year has grown by exactly 2 and the other
counters are as they were. -/
theorem toggle_counts_each_transition (s0 s1 : Store) (hwf : s0.WF) (c0 c1 c2 c3 : Clock)
    (owner id : Nat) (nb : NewItemBody) (t : String) (col : Column)
    (hadd : addItem c0 owner nb s0 = .ok (id, s1))
    (hty : nb.type = some t) (hcol : columnOfType t = some col)
    (b1 b2 b3 : UpdateBody)
    (h1 : b1.title.isSome ∧ b1.type = some t ∧ b1.status.isSome ∧ b1.is_finished = true)
    (h2 : b2.title.isSome ∧ b2.type = some t ∧ b2.status.isSome ∧ b2.is_finished = false)
    (h3 : b3.title.isSome ∧ b3.type = some t ∧ b3.status.isSome ∧ b3.is_finished = true)
    (hy : c1.year = c3.year) :
    ∃ s2 s3 s4, updateItem c1 owner id b1 s1 = .ok s2 ∧ updateItem c2 owner id b2 s2 = .ok s3 ∧
      updateItem c3 owner id b3 s3 = .ok s4 ∧
      ∀ col', annualCount s4.annual_stats owner c3.year col' =
        annualCount s1.annual_stats owner c3.year col' + if col' = col then 2 else 0 := by
  obtain ⟨item, hfind1, hnf, -, hty', hst1'⟩ := addItem_found hwf hadd
  have htt : item.type = t := (Option.some.inj (hty'.symm.trans hty))
  have hwf1 := wf_addItem hwf hadd
  obtain ⟨ht1, hty1, hst1, hf1⟩ := h1
  obtain ⟨ht2, hty2, hst2, hf2⟩ := h2
  obtain ⟨ht3, hty3, hst3, hf3⟩ := h3
  obtain ⟨title1, ht1⟩ := Option.isSome_iff_exists.1 ht1
  obtain ⟨status1, hst1⟩ := Option.isSome_iff_exists.1 hst1
  obtain ⟨title2, ht2⟩ := Option.isSome_iff_exists.1 ht2
  obtain ⟨status2, hst2⟩ := Option.isSome_iff_exists.1 hst2
  obtain ⟨title3, ht3⟩ := Option.isSome_iff_exists.1 ht3
  obtain ⟨status3, hst3⟩ := Option.isSome_iff_exists.1 hst3
  obtain ⟨s2, hu1, hfind2, hst2', hwf2⟩ :=
    updateItem_found c1 owner id b1 s1 _ title1 t status1 hfind1 ht1 hty1 hst1
  obtain ⟨s3, hu2, hfind3, hst3', hwf3⟩ :=
    updateItem_found c2 owner id b2 s2 _ title2 t status2 hfind2 ht2 hty2 hst2
  obtain ⟨s4, hu3, -, hst4', -⟩ :=
    updateItem_found c3 owner id b3 s3 _ title3 t status3 hfind3 ht3 hty3 hst3
  refine ⟨s2, s3, s4, hu1, hu2, hu3, ?_⟩
  intro col'
  have hw2 := hwf2 hwf1
  simp only [setFields, hf1, hf2, hf3, hnf, htt, Bool.not_false, Bool.and_self, Bool.not_true,
    Bool.and_false, if_true, updateAnnualStats, hcol] at hst2' hst3' hst4'
  simp only [Bool.false_eq_true, if_false] at hst3'
  rw [hy] at hst2'
  have hu := hw2.annual_unique owner c3.year
  rw [hst2'] at hu
  rw [hst4', hst3', hst2', annualCount_upsertAnnual _ _ _ _ hu,
    annualCount_upsertAnnual _ _ _ _ (hwf1.annual_unique _ _)]
  by_cases hc : col' = col <;> simp [hc]
  omega

/-- C3, the claim as stated fails: for the book "Dune" created by `addItem`, the
updates `is_finished = true`, `false`, `true` all succeed and the owner's
`books_read` of the year grows from 0 to 2, not by exactly 1. -/
theorem toggle_counts_once_counterexample :
    addItem (clockAt "t0") 1 duneBody (emptyStore [⟨1, "ann", none⟩]) = .ok (1, oneBook) ∧
    updateItem (clockAt "t1") 1 1 (duneUpdate true) oneBook = .ok finishedBook ∧
    updateItem (clockAt "t2") 1 1 (duneUpdate false) finishedBook = .ok unfinishedBook ∧
    updateItem (clockAt "t3") 1 1 (duneUpdate true) unfinishedBook = .ok refinishedBook ∧
    annualCount oneBook.annual_stats 1 2026 .books_read = 0 ∧
    annualCount refinishedBook.annual_stats 1 2026 .books_read = 2 ∧
    ¬ (annualCount refinishedBook.annual_stats 1 2026 .books_read =
        annualCount oneBook.annual_stats 1 2026 .books_read + 1) :=
  ⟨rfl, rfl, rfl, rfl, by decide, by decide, by decide⟩

theorem toggle_counts_each_transition_witness :
    (emptyStore [⟨1, "ann", none⟩]).WF ∧
    addItem (clockAt "t0") 1 duneBody (emptyStore [⟨1, "ann", none⟩]) = .ok (1, oneBook) ∧
    ∃ s2 s3 s4, updateItem (clockAt "t1") 1 1 (duneUpdate true) oneBook = .ok s2 ∧
      updateItem (clockAt "t2") 1 1 (duneUpdate false) s2 = .ok s3 ∧
      updateItem (clockAt "t3") 1 1 (duneUpdate true) s3 = .ok s4 ∧
      ∀ col', annualCount s4.annual_stats 1 2026 col' =
        annualCount oneBook.annual_stats 1 2026 col' +
          if col' = Column.books_read then 2 else 0 :=
  ⟨wf_emptyStore _, rfl,
    toggle_counts_each_transition (emptyStore [⟨1, "ann", none⟩]) oneBook (wf_emptyStore _)
      (clockAt "t0") (clockAt "t1") (clockAt "t2") (clockAt "t3") 1 1 duneBody "book"
      .books_read rfl rfl (by decide) (duneUpdate true) (duneUpdate false) (duneUpdate true)
      ⟨rfl, rfl, rfl, rfl⟩ ⟨rfl, rfl, rfl, rfl⟩ ⟨rfl, rfl, rfl, rfl⟩ rfl⟩

/-! ## The completion date through later updates -/

theorem updateItem_step_date (c : Clock) (user id : Nat) (b : UpdateBody) (s : Store)
    (item : MediaItem) (hfind : findOwned user id s.media_items = some item) :
    ∃ item', findOwned user id (step s (.updateItem c user id b)).media_items = some item' ∧
      (item.date_completed ≠ none → item'.date_completed ≠ none) ∧
      (¬ (item.is_finished = false ∧ b.is_finished = true) →
        item'.date_completed = item.date_completed) := by
  simp only [step]
  cases h : updateItem c user id b s with
  | error e => exact ⟨item, hfind, fun hne => hne, fun _ => rfl⟩
  | ok s' =>
    obtain ⟨item0, title, type, status, hf, -, -, -, rfl⟩ := updateItem_inv h
    rw [hfind] at hf
    cases hf
    refine ⟨setFields item title type status b (completionDate c item b),
      by simp only [findOwned_updatedItems, hfind, Option.map_some'], ?_, ?_⟩
    · intro hne
      simp only [setFields, completionDate]
      split
      · simp
      · exact hne
    · intro hnt
      simp only [setFields, completionDate]
      cases h1 : item.is_finished <;> cases h2 : b.is_finished <;> simp_all

/-- C4, as the code has it. Once an item's `date_completed` is non-null, it is
still non-null after every sequence of `updateItem` calls on the item, whatever
`is_finished` values they carry; and a single update keeps its value unless the
update is a not-finished to finished transition. -/
theorem date_completed_never_cleared (user id : Nat) (s : Store) (item : MediaItem)
    (hfind : findOwned user id s.media_items = some item)
    (hset : item.date_completed ≠ none) :
    (∀ ups : List (Clock × UpdateBody), ∃ item',
      findOwned user id
        (run s (ups.map (fun u => Request.updateItem u.1 user id u.2))).media_items =
          some item' ∧ item'.date_completed ≠ none) ∧
    (∀ c b, ¬ (item.is_finished = false ∧ b.is_finished = true) →
      ∃ item', findOwned user id (step s (.updateItem c user id b)).media_items = some item' ∧
        item'.date_completed = item.date_completed) := by
  constructor
  · intro ups
    induction ups generalizing s item with
    | nil => exact ⟨item, hfind, hset⟩
    | cons u ups ih =>
      obtain ⟨item1, hf1, hne1, -⟩ := updateItem_step_date u.1 user id u.2 s item hfind
      exact ih _ item1 hf1 (hne1 hset)
  · intro c b hnt
    obtain ⟨item1, hf1, -, heq⟩ := updateItem_step_date c user id b s item hfind
    exact ⟨item1, hf1, heq hnt⟩

/-- C4, the claim as stated fails: "Dune" first receives the completion date
`t1`; after it is unfinished and finished again at `t3` its `date_completed` is
`t3`. -/
theorem date_completed_unchanged_counterexample :
    findOwned 1 1 finishedBook.media_items = some duneFinished ∧
    duneFinished.date_completed = some "t1" ∧
    ∃ item', findOwned 1 1
        (run finishedBook [.updateItem (clockAt "t2") 1 1 (duneUpdate false),
          .updateItem (clockAt "t3") 1 1 (duneUpdate true)]).media_items = some item' ∧
      item'.date_completed = some "t3" ∧ item'.date_completed ≠ duneFinished.date_completed :=
  ⟨by decide, rfl, ⟨{ duneFinished with date_completed := some "t3" },
    by decide, rfl, by decide⟩⟩

theorem date_completed_never_cleared_witness :
    findOwned 1 1 finishedBook.media_items = some duneFinished ∧
    duneFinished.date_completed ≠ none ∧
    (∃ item', findOwned 1 1
        (run finishedBook [.updateItem (clockAt "t2") 1 1 (duneUpdate false),
          .updateItem (clockAt "t3") 1 1 (duneUpdate true)]).media_items = some item' ∧
      item'.date_completed ≠ none) ∧
    ∃ item', findOwned 1 1
        (step finishedBook (.updateItem (clockAt "t2") 1 1 (duneUpdate false))).media_items =
          some item' ∧ item'.date_completed = some "t1" :=
  ⟨by decide, by decide,
    (date_completed_never_cleared 1 1 finishedBook duneFinished (by decide) (by decide)).1
      [(clockAt "t2", duneUpdate false), (clockAt "t3", duneUpdate true)],
    (date_completed_never_cleared 1 1 finishedBook duneFinished (by decide) (by decide)).2
      (clockAt "t2") (duneUpdate false) (by decide)⟩

/-! ## The completion date and the history of `is_finished` -/

theorem step_media_seq_le (s : Store) (r : Request) : s.media_seq ≤ (step s r).media_seq := by
  cases r with
  | addItem c user b =>
    simp only [step]
    split
    · rename_i id s' h
      obtain ⟨_, _, _, -, -, -, -, rfl⟩ := addItem_inv h
      exact Nat.le_succ _
    · exact Nat.le_refl _
  | updateItem c user id b =>
    simp only [step]
    split
    · rename_i s' h
      obtain ⟨_, _, _, _, -, -, -, -, rfl⟩ := updateItem_inv h
      exact Nat.le_refl _
    · exact Nat.le_refl _
  | deleteItem user id => exact Nat.le_refl _
  | addDailyPages c user pages => exact Nat.le_refl _

theorem eq_of_mem_of_id_eq {items : List MediaItem} (h : (items.map (·.id)).Nodup)
    {a b : MediaItem} (ha : a ∈ items) (hb : b ∈ items) (hab : a.id = b.id) : a = b :=
  List.inj_on_of_nodup_map h ha hb hab

/-- Where a row of `media_items` after a request comes from: it is the row an
`addItem` has just created, or it descends from the row with the same id, which
it equals unless an `updateItem` rewrote it. -/
theorem step_mem {s : Store} (hwf : s.WF) (r : Request) {it1 : MediaItem}
    (h1 : it1 ∈ (step s r).media_items) :
    (it1.id = s.media_seq + 1 ∧ it1.is_finished = false ∧ it1.date_completed = none) ∨
    ∃ it0 ∈ s.media_items, it0.id = it1.id ∧
      (it1 = it0 ∨ ∃ c b, it1.is_finished = b.is_finished ∧
        it1.date_completed = completionDate c it0 b) := by
  cases r with
  | addItem c user b =>
    simp only [step] at h1
    split at h1
    · rename_i id s' h
      obtain ⟨_, _, _, -, -, -, -, rfl⟩ := addItem_inv h
      simp only [List.mem_append, List.mem_singleton] at h1
      rcases h1 with h1 | rfl
      · exact Or.inr ⟨it1, h1, rfl, Or.inl rfl⟩
      · exact Or.inl ⟨rfl, rfl, rfl⟩
    · exact Or.inr ⟨it1, h1, rfl, Or.inl rfl⟩
  | updateItem c user id b =>
    simp only [step] at h1
    split at h1
    · rename_i s' h
      obtain ⟨item, title, type, status, hf, -, -, -, rfl⟩ := updateItem_inv h
      simp only [updatedItems, List.mem_map] at h1
      obtain ⟨it0, h0, rfl⟩ := h1
      obtain ⟨hmem, hid, -⟩ := findOwned_some hf
      right
      refine ⟨it0, h0, ?_, ?_⟩
      · split <;> rfl
      · split
        · rename_i hk
          have : item = it0 := eq_of_mem_of_id_eq hwf.media_pk hmem h0 (hid.trans hk.1.symm)
          subst this
          exact Or.inr ⟨c, b, rfl, rfl⟩
        · exact Or.inl rfl
    · exact Or.inr ⟨it1, h1, rfl, Or.inl rfl⟩
  | deleteItem user id =>
    exact Or.inr ⟨it1, List.mem_of_mem_filter h1, rfl, Or.inl rfl⟩
  | addDailyPages c user pages => exact Or.inr ⟨it1, h1, rfl, Or.inl rfl⟩

theorem completionDate_facts (c : Clock) (it0 : MediaItem) (b : UpdateBody) :
    (it0.date_completed ≠ none → completionDate c it0 b ≠ none) ∧
    (completionDate c it0 b ≠ none → it0.date_completed ≠ none ∨ b.is_finished = true) ∧
    (b.is_finished = true → (it0.is_finished = true → it0.date_completed ≠ none) →
      completionDate c it0 b ≠ none) := by
  unfold completionDate
  cases it0.is_finished <;> cases b.is_finished <;> simp

theorem finishedHaveDate_step {s : Store} (hwf : s.WF) (hI : FinishedHaveDate s)
    (r : Request) : FinishedHaveDate (step s r) := by
  intro it1 h1 hfin
  rcases step_mem hwf r h1 with ⟨-, hf, -⟩ | ⟨it0, h0, -, rfl | ⟨c, b, hb, hdc⟩⟩
  · rw [hf] at hfin
    cases hfin
  · exact hI it1 h0 hfin
  · rw [hdc]
    exact (completionDate_facts c it0 b).2.2 (hb ▸ hfin) (hI it0 h0)

theorem finishedHaveDate_run (reqs : List Request) {s : Store} (hwf : s.WF)
    (hI : FinishedHaveDate s) : FinishedHaveDate (run s reqs) := by
  induction reqs generalizing s with
  | nil => exact hI
  | cons r reqs ih => exact ih (wf_step hwf r) (finishedHaveDate_step hwf hI r)

theorem finishedIn_iff (s : Store) (id : Nat) :
    finishedIn s id = true ↔ ∃ it ∈ s.media_items, it.id = id ∧ it.is_finished = true := by
  simp [finishedIn]

theorem everFinished_of_finishedIn (s : Store) (reqs : List Request) (id : Nat)
    (h : finishedIn s id = true) : everFinished s reqs id = true := by
  cases reqs with
  | nil => exact h
  | cons r reqs => simp [everFinished, h]

/-- An item found after a sequence of requests whose id the sequence had already
handed out at the start was stored at the start: ids are not reused. -/
theorem present_of_mem_run (reqs : List Request) {s : Store} (hwf : s.WF) {it : MediaItem}
    (h : it ∈ (run s reqs).media_items) (hid : it.id ≤ s.media_seq) :
    ∃ it0 ∈ s.media_items, it0.id = it.id := by
  induction reqs generalizing s with
  | nil => exact ⟨it, h, rfl⟩
  | cons r reqs ih =>
    obtain ⟨it1, h1, hid1⟩ :=
      ih (wf_step hwf r) h (Nat.le_trans hid (step_media_seq_le s r))
    rcases step_mem hwf r h1 with ⟨hnew, -, -⟩ | ⟨it0, h0, hid0, -⟩
    · omega
    · exact ⟨it0, h0, hid0.trans hid1⟩

theorem date_iff_everFinished (reqs : List Request) {s : Store} (hwf : s.WF)
    (hI : FinishedHaveDate s) {it : MediaItem} (h : it ∈ (run s reqs).media_items) :
    it.date_completed ≠ none ↔
      ((∃ it0 ∈ s.media_items, it0.id = it.id ∧ it0.date_completed ≠ none) ∨
        everFinished s reqs it.id = true) := by
  induction reqs generalizing s with
  | nil =>
    constructor
    · intro hne
      exact Or.inl ⟨it, h, rfl, hne⟩
    · rintro (⟨it0, h0, hid0, hne0⟩ | hev)
      · rw [← eq_of_mem_of_id_eq hwf.media_pk h0 h hid0]
        exact hne0
      · obtain ⟨it0, h0, hid0, hfin0⟩ := (finishedIn_iff s it.id).1 hev
        rw [← eq_of_mem_of_id_eq hwf.media_pk h0 h hid0]
        exact hI it0 h0 hfin0
  | cons r reqs ih =>
    have IH := ih (wf_step hwf r) (finishedHaveDate_step hwf hI r) h
    have key : ∀ it0 ∈ s.media_items, it0.id = it.id → it0.date_completed ≠ none →
        it.date_completed ≠ none := by
      intro it0 h0 hid0 hne0
      have hb := hwf.media_seq_bound it0 h0
      obtain ⟨it1, h1, hid1⟩ := present_of_mem_run reqs (wf_step hwf r) h
        (Nat.le_trans (by omega) (step_media_seq_le s r))
      refine IH.2 (Or.inl ⟨it1, h1, hid1, ?_⟩)
      rcases step_mem hwf r h1 with ⟨hnew, -, -⟩ | ⟨it0', h0', hid0', hrel⟩
      · omega
      · have : it0' = it0 :=
          eq_of_mem_of_id_eq hwf.media_pk h0' h0 (by omega)
        subst this
        rcases hrel with rfl | ⟨c, b, -, hdc⟩
        · exact hne0
        · rw [hdc]
          exact (completionDate_facts c it0' b).1 hne0
    constructor
    · intro hne
      rcases IH.1 hne with ⟨it1, h1, hid1, hne1⟩ | hev
      · rcases step_mem hwf r h1 with ⟨-, -, hnone⟩ | ⟨it0, h0, hid0, rfl | ⟨c, b, hb, hdc⟩⟩
        · exact absurd hnone hne1
        · exact Or.inl ⟨it1, h0, hid1, hne1⟩
        · rw [hdc] at hne1
          rcases (completionDate_facts c it0 b).2.1 hne1 with hne0 | hfin
          · exact Or.inl ⟨it0, h0, hid0.trans hid1, hne0⟩
          · right
            have : finishedIn (step s r) it.id = true :=
              (finishedIn_iff _ _).2 ⟨it1, h1, hid1, hb.trans hfin⟩
            simp [everFinished, everFinished_of_finishedIn _ reqs _ this]
      · right
        simp [everFinished, hev]
    · rintro (⟨it0, h0, hid0, hne0⟩ | hev)
      · exact key it0 h0 hid0 hne0
      · simp only [everFinished, Bool.or_eq_true] at hev
        rcases hev with hfin | hev
        · obtain ⟨it0, h0, hid0, hfin0⟩ := (finishedIn_iff s it.id).1 hfin
          exact key it0 h0 hid0 (hI it0 h0 hfin0)
        · exact IH.2 (Or.inr hev)

/-- C5. In every store reached from the empty store by a sequence of requests
(`addItem`, `updateItem`, `deleteItem`, and `addDailyPages`), each stored item has
a non-null `date_completed` if and only if it was stored with `is_finished` true
in one of the stores passed through; in particular a stored item with
`is_finished` true has a non-null `date_completed`. -/
theorem date_completed_iff_ever_finished (users : List User) (reqs : List Request)
    (it : MediaItem) (h : it ∈ (run (emptyStore users) reqs).media_items) :
    (it.date_completed ≠ none ↔ everFinished (emptyStore users) reqs it.id = true) ∧
    (it.is_finished = true → it.date_completed ≠ none) := by
  have hI : FinishedHaveDate (emptyStore users) := by
    intro it0 h0
    simp [emptyStore] at h0
  refine ⟨?_, finishedHaveDate_run reqs (wf_emptyStore users) hI it h⟩
  rw [date_iff_everFinished reqs (wf_emptyStore users) hI h]
  simp [emptyStore]

theorem date_completed_iff_ever_finished_witness :
    ({ duneFinished with is_finished := false } : MediaItem) ∈
        (run (emptyStore [⟨1, "ann", none⟩]) [.addItem (clockAt "t0") 1 duneBody,
          .updateItem (clockAt "t1") 1 1 (duneUpdate true),
          .updateItem (clockAt "t2") 1 1 (duneUpdate false)]).media_items ∧
    (some "t1" ≠ none ↔ everFinished (emptyStore [⟨1, "ann", none⟩])
        [.addItem (clockAt "t0") 1 duneBody,
          .updateItem (clockAt "t1") 1 1 (duneUpdate true),
          .updateItem (clockAt "t2") 1 1 (duneUpdate false)] 1 = true) :=
  ⟨by decide, (date_completed_iff_ever_finished [⟨1, "ann", none⟩]
      [.addItem (clockAt "t0") 1 duneBody, .updateItem (clockAt "t1") 1 1 (duneUpdate true),
        .updateItem (clockAt "t2") 1 1 (duneUpdate false)]
      { duneFinished with is_finished := false } (by decide)).1⟩

/-! ## Completing several items -/

theorem findOwned_updatedItems_ne (user id id' : Nat) (hne : id' ≠ id)
    (title type status : String) (b : UpdateBody) (dc : Option String)
    (items : List MediaItem) :
    findOwned user id' (updatedItems user id title type status b dc items) =
      findOwned user id' items := by
  unfold updatedItems
  rw [findOwned_map _ (by intro it; split <;> rfl) (by intro it; split <;> rfl)]
  cases h : findOwned user id' items with
  | none => rfl
  | some it =>
    obtain ⟨-, h1, -⟩ := findOwned_some h
    have : ¬ (it.id = id ∧ it.user_id = user) := fun hk => hne (h1.symm.trans hk.1)
    simp [this]

theorem run_cons (s : Store) (r : Request) (reqs : List Request) :
    run s (r :: reqs) = run (step s r) reqs := rfl

theorem annualCount_completions (user year : Nat) (t : String) (col : Column)
    (hcol : columnOfType t = some col) (ups : List (Clock × Nat × UpdateBody)) (s : Store)
    (hwf : s.WF) (hdistinct : (ups.map (fun u => u.2.1)).Nodup)
    (hitems : ∀ u ∈ ups, ∃ item, findOwned user u.2.1 s.media_items = some item ∧
      item.type = t ∧ item.is_finished = false)
    (hreq : ∀ u ∈ ups, u.1.year = year ∧ u.2.2.is_finished = true ∧
      u.2.2.title.isSome ∧ u.2.2.type.isSome ∧ u.2.2.status.isSome) (col' : Column) :
    annualCount (run s (ups.map (fun u => Request.updateItem u.1 user u.2.1 u.2.2))).annual_stats
        user year col' =
      annualCount s.annual_stats user year col' + if col' = col then (ups.length : Int) else 0 := by
  induction ups generalizing s with
  | nil => simp [run]
  | cons u ups ih =>
    obtain ⟨item, hfind, hty, hnf⟩ := hitems u (List.mem_cons_self _ _)
    obtain ⟨hy, hfin, ht, htp, hst⟩ := hreq u (List.mem_cons_self _ _)
    obtain ⟨title, ht⟩ := Option.isSome_iff_exists.1 ht
    obtain ⟨type, htp⟩ := Option.isSome_iff_exists.1 htp
    obtain ⟨status, hst⟩ := Option.isSome_iff_exists.1 hst
    have hok := updateItem_ok u.1 user u.2.1 u.2.2 s item title type status hfind ht htp hst
    have hwf1 := wf_updateItem hwf hok
    rw [List.map_cons, run_cons]
    simp only [step, hok]
    rw [List.map_cons, List.nodup_cons] at hdistinct
    rw [ih _ hwf1 hdistinct.2]
    · simp only [hfin, hnf, Bool.not_false, Bool.and_self, if_true, updateAnnualStats, hty,
        hcol, hy]
      rw [annualCount_upsertAnnual _ _ _ _ (hwf.annual_unique _ _)]
      by_cases hc : col' = col <;> simp [hc]
      omega
    · intro u' hu'
      obtain ⟨item', hfind', hrest⟩ := hitems u' (List.mem_cons_of_mem _ hu')
      have hne : u'.2.1 ≠ u.2.1 := by
        intro he
        exact hdistinct.1 (he ▸ List.mem_map_of_mem (fun u => u.2.1) hu')
      exact ⟨item', by simp only [findOwned_updatedItems_ne _ _ _ hne, hfind'], hrest⟩
    · intro u' hu'
      exact hreq u' (List.mem_cons_of_mem _ hu')

/-- C6. Start in a store (satisfying the schema constraints) with no
`annual_stats` row for `(user, year)`. Completing `K` distinct items of the user
of a mapped type, each stored as not finished and updated once with
`is_finished = true` in that year, yields the mapped counter equal to `K` and
the other three equal to 0; a missing row (`K = 0`) counts as 0, and for
`K > 0` the counters are those of the single row of `(user, year)`. -/
theorem completing_K_items (s : Store) (hwf : s.WF) (user year : Nat) (t : String)
    (col : Column) (hcol : columnOfType t = some col)
    (hnone : s.annual_stats.filter (fun r => r.user_id = user ∧ r.year = year) = [])
    (ups : List (Clock × Nat × UpdateBody))
    (hdistinct : (ups.map (fun u => u.2.1)).Nodup)
    (hitems : ∀ u ∈ ups, ∃ item, findOwned user u.2.1 s.media_items = some item ∧
      item.type = t ∧ item.is_finished = false)
    (hreq : ∀ u ∈ ups, u.1.year = year ∧ u.2.2.is_finished = true ∧
      u.2.2.title.isSome ∧ u.2.2.type.isSome ∧ u.2.2.status.isSome) :
    (∀ col', annualCount
        (run s (ups.map (fun u => Request.updateItem u.1 user u.2.1 u.2.2))).annual_stats
        user year col' = if col' = col then (ups.length : Int) else 0) ∧
    (ups ≠ [] → ∃ r,
      (run s (ups.map (fun u => Request.updateItem u.1 user u.2.1 u.2.2))).annual_stats.filter
        (fun r => r.user_id = user ∧ r.year = year) = [r] ∧
      ∀ col', r.get col' = if col' = col then (ups.length : Int) else 0) := by
  have hcount : ∀ col', annualCount
      (run s (ups.map (fun u => Request.updateItem u.1 user u.2.1 u.2.2))).annual_stats
      user year col' = if col' = col then (ups.length : Int) else 0 := by
    intro col'
    rw [annualCount_completions user year t col hcol ups s hwf hdistinct hitems hreq col']
    simp only [annualCount, hnone, List.map_nil, List.sum_nil, zero_add]
  refine ⟨hcount, ?_⟩
  intro hne
  have hu := (wf_run hwf (ups.map (fun u => Request.updateItem u.1 user u.2.1 u.2.2))).annual_unique
    user year
  have hc := hcount col
  cases hfl : (run s (ups.map (fun u => Request.updateItem u.1 user u.2.1 u.2.2))).annual_stats.filter
      (fun r => decide (r.user_id = user ∧ r.year = year)) with
  | nil =>
    exfalso
    simp only [annualCount, hfl, List.map_nil, List.sum_nil, if_true] at hc
    have : ups.length = 0 := by omega
    exact hne (List.length_eq_zero.1 this)
  | cons r rest =>
    rw [hfl] at hu
    have hrest : rest = [] := by
      cases rest with
      | nil => rfl
      | cons _ _ => simp at hu
    subst hrest
    refine ⟨r, rfl, ?_⟩
    intro col'
    have := hcount col'
    simpa only [annualCount, hfl, List.map_cons, List.map_nil, List.sum_cons, List.sum_nil,
      add_zero] using this

theorem completing_K_items_witness :
    twoBooks.WF ∧
    twoBooks.annual_stats.filter (fun r => r.user_id = 1 ∧ r.year = 2026) = [] ∧
    (∀ col', annualCount
        (run twoBooks [.updateItem (clockAt "t1") 1 1 (duneUpdate true),
          .updateItem (clockAt "t2") 1 2 (emmaUpdate true)]).annual_stats 1 2026 col' =
        if col' = Column.books_read then 2 else 0) :=
  ⟨(wf_run (wf_run (wf_emptyStore [⟨1, "ann", none⟩]) [.addItem (clockAt "t0") 1 duneBody])
      [.addItem (clockAt "t0") 1 emmaBody]), by decide,
    (completing_K_items twoBooks
      (wf_run (wf_run (wf_emptyStore [⟨1, "ann", none⟩]) [.addItem (clockAt "t0") 1 duneBody])
      [.addItem (clockAt "t0") 1 emmaBody])
      1 2026 "book" .books_read
      (by decide) (by decide) finishBoth (by decide)
      (fun u hu => by
        simp only [finishBoth, List.mem_cons, List.mem_singleton, List.mem_nil_iff,
          or_false] at hu
        rcases hu with rfl | rfl
        · exact ⟨duneAdded, by decide, rfl, rfl⟩
        · exact ⟨emmaAdded, by decide, rfl, rfl⟩)
      (fun u hu => by
        simp only [finishBoth, List.mem_cons, List.mem_singleton, List.mem_nil_iff,
          or_false] at hu
        rcases hu with rfl | rfl <;> exact ⟨rfl, rfl, rfl, rfl, rfl⟩)).1⟩

/-! ## Daily reading -/

/-! ### Rounding to doubles -/

theorem roundHalfEven_bounds (a m : Nat) :
    a / m * m ≤ roundHalfEven a m ∧ roundHalfEven a m ≤ (a / m + 1) * m := by
  unfold roundHalfEven
  simp only
  split
  · exact ⟨Nat.mul_le_mul_right m (Nat.le_succ _), Nat.le_refl _⟩
  · exact ⟨Nat.le_refl _, Nat.mul_le_mul_right m (Nat.le_succ _)⟩

theorem roundHalfEven_mono (m : Nat) {a b : Nat} (hab : a ≤ b) :
    roundHalfEven a m ≤ roundHalfEven b m := by
  have hq : a / m ≤ b / m := Nat.div_le_div_right hab
  rcases Nat.lt_or_eq_of_le hq with hlt | heq
  · calc roundHalfEven a m ≤ (a / m + 1) * m := (roundHalfEven_bounds a m).2
      _ ≤ b / m * m := Nat.mul_le_mul_right m hlt
      _ ≤ roundHalfEven b m := (roundHalfEven_bounds b m).1
  · have ha := Nat.div_add_mod a m
    have hb := Nat.div_add_mod b m
    rw [heq] at ha
    have hr : a % m ≤ b % m := by omega
    unfold roundHalfEven
    simp only [heq]
    by_cases h1 : 2 * (a % m) > m ∨ (2 * (a % m) = m ∧ b / m % 2 = 1)
    · have h2 : 2 * (b % m) > m ∨ (2 * (b % m) = m ∧ b / m % 2 = 1) := by omega
      rw [if_pos h1, if_pos h2]
    · rw [if_neg h1]
      split
      · exact Nat.mul_le_mul_right m (Nat.le_succ _)
      · exact Nat.le_refl _

theorem roundHalfEven_one (a : Nat) : roundHalfEven a 1 = a := by
  simp [roundHalfEven, Nat.mod_one]

theorem roundHalfEven_le_top (a e : Nat) (h : a < 2 ^ (53 + e)) :
    roundHalfEven a (2 ^ e) ≤ 2 ^ (53 + e) := by
  have hq : a / 2 ^ e < 2 ^ 53 := by
    rw [Nat.div_lt_iff_lt_mul (Nat.pos_pow_of_pos e (by decide)), ← Nat.pow_add]
    exact h
  calc roundHalfEven a (2 ^ e) ≤ (a / 2 ^ e + 1) * 2 ^ e := (roundHalfEven_bounds a _).2
    _ ≤ 2 ^ 53 * 2 ^ e := Nat.mul_le_mul_right _ hq
    _ = 2 ^ (53 + e) := (Nat.pow_add 2 53 e).symm

theorem roundNatFrom_ge (fuel e a : Nat) (h : 2 ^ (52 + e) ≤ a) :
    2 ^ (52 + e) ≤ roundNatFrom fuel e a := by
  induction fuel generalizing e with
  | zero => exact h
  | succ fuel ih =>
    unfold roundNatFrom
    split
    · have hq : 2 ^ 52 ≤ a / 2 ^ e := by
        rw [Nat.le_div_iff_mul_le (Nat.pos_pow_of_pos e (by decide)), ← Nat.pow_add]
        exact h
      calc 2 ^ (52 + e) = 2 ^ 52 * 2 ^ e := Nat.pow_add 2 52 e
        _ ≤ a / 2 ^ e * 2 ^ e := Nat.mul_le_mul_right _ hq
        _ ≤ roundHalfEven a (2 ^ e) := (roundHalfEven_bounds a _).1
    · rename_i hge
      have h' : 2 ^ (52 + (e + 1)) ≤ a := by
        have : 52 + (e + 1) = 53 + e := by omega
        rw [this]
        exact Nat.le_of_not_lt hge
      have h2 : 2 ^ (52 + e) ≤ 2 ^ (52 + (e + 1)) :=
        Nat.pow_le_pow_right (by decide) (by omega)
      exact Nat.le_trans h2 (ih (e + 1) h')

theorem roundNatFrom_mono (fuel e : Nat) {a b : Nat} (hab : a ≤ b) :
    roundNatFrom fuel e a ≤ roundNatFrom fuel e b := by
  induction fuel generalizing e with
  | zero => exact hab
  | succ fuel ih =>
    unfold roundNatFrom
    by_cases ha : a < 2 ^ (53 + e)
    · by_cases hb : b < 2 ^ (53 + e)
      · rw [if_pos ha, if_pos hb]
        exact roundHalfEven_mono _ hab
      · rw [if_pos ha, if_neg hb]
        have h' : 2 ^ (52 + (e + 1)) ≤ b := by
          have : 52 + (e + 1) = 53 + e := by omega
          rw [this]
          exact Nat.le_of_not_lt hb
        have h1 := roundNatFrom_ge fuel (e + 1) b h'
        have h2 := roundHalfEven_le_top a e ha
        have : 52 + (e + 1) = 53 + e := by omega
        rw [this] at h1
        exact Nat.le_trans h2 h1
    · have hb : ¬ b < 2 ^ (53 + e) := fun h => ha (Nat.lt_of_le_of_lt hab h)
      rw [if_neg ha, if_neg hb]
      exact ih (e + 1)

theorem roundDouble_mono {x y : Int} (h : x ≤ y) : roundDouble x ≤ roundDouble y := by
  unfold roundDouble
  by_cases hx : 0 ≤ x
  · have hy : 0 ≤ y := Int.le_trans hx h
    rw [if_pos hx, if_pos hy]
    exact Int.ofNat_le.2 (roundNatFrom_mono _ _ (Int.toNat_le_toNat h))
  · by_cases hy : 0 ≤ y
    · rw [if_neg hx, if_pos hy]
      have h1 : (0 : Int) ≤ (roundNatFrom 1024 0 (-x).toNat : Nat) := Int.ofNat_nonneg _
      have h2 : (0 : Int) ≤ (roundNatFrom 1024 0 y.toNat : Nat) := Int.ofNat_nonneg _
      omega
    · rw [if_neg hx, if_neg hy]
      have : (roundNatFrom 1024 0 (-y).toNat : Int) ≤ (roundNatFrom 1024 0 (-x).toNat : Nat) :=
        Int.ofNat_le.2 (roundNatFrom_mono _ _ (Int.toNat_le_toNat (by omega)))
      omega

theorem roundDouble_of_small (n : Int) (h : n.natAbs < 2 ^ 53) : roundDouble n = n := by
  have hsmall : ∀ a : Nat, a < 2 ^ 53 → roundNatFrom 1024 0 a = a := by
    intro a ha
    show (if a < 2 ^ (53 + 0) then roundHalfEven a (2 ^ 0) else roundNatFrom 1023 1 a) = a
    rw [if_pos ha]
    exact roundHalfEven_one a
  unfold roundDouble
  by_cases hn : 0 ≤ n
  · rw [if_pos hn, hsmall _ (by omega)]
    omega
  · rw [if_neg hn, hsmall _ (by omega)]
    omega

theorem integerAffinity_int (v : Int) : integerAffinity ⟨false, v⟩ = ⟨false, v⟩ := by
  unfold integerAffinity
  rw [if_neg]
  rintro ⟨h, -⟩
  cases h

theorem integerAffinity_real (v : Int) (h : -(2 ^ 63) < v ∧ v < 2 ^ 63 - 1) :
    integerAffinity ⟨true, v⟩ = ⟨false, v⟩ := by
  unfold integerAffinity
  rw [if_pos ⟨rfl, h⟩]

theorem integerAffinity_bind_small (p : Int) (h : p.natAbs < 2 ^ 53) :
    integerAffinity (bindNumber p) = ⟨false, p⟩ := by
  unfold bindNumber
  split
  · exact integerAffinity_int p
  · exact integerAffinity_real p (by omega)

theorem integerAffinity_add_small (s p : Int) (h : s.natAbs + p.natAbs < 2 ^ 53) :
    integerAffinity (sqlAdd ⟨false, s⟩ (bindNumber p)) = ⟨false, s + p⟩ := by
  have hsum : (s + p).natAbs < 2 ^ 53 := by omega
  have hrange : -(2 ^ 63) ≤ s + p ∧ s + p < 2 ^ 63 := by omega
  unfold bindNumber
  split
  · unfold sqlAdd
    rw [if_pos ⟨rfl, hrange⟩]
    exact integerAffinity_int _
  · unfold sqlAdd
    rw [if_neg (by rintro ⟨h1, -⟩; cases h1)]
    show integerAffinity ⟨true, roundDouble (roundDouble s + p)⟩ = _
    rw [roundDouble_of_small s (by omega), roundDouble_of_small (s + p) hsum]
    exact integerAffinity_real _ (by omega)

theorem roundHalfEven_of_dvd {a m : Nat} (hm : 0 < m) (h : m ∣ a) : roundHalfEven a m = a := by
  have hr : a % m = 0 := Nat.mod_eq_zero_of_dvd h
  unfold roundHalfEven
  simp only [hr]
  rw [if_neg (by omega)]
  exact Nat.div_mul_cancel h

theorem roundHalfEven_dvd (a m : Nat) : m ∣ roundHalfEven a m := by
  unfold roundHalfEven
  simp only
  split
  · exact Nat.dvd_mul_left _ _
  · exact Nat.dvd_mul_left _ _

theorem roundNatFrom_fixed (fuel e e' b : Nat) (he : e ≤ e') (hdvd : 2 ^ e' ∣ b)
    (hlt : b < 2 ^ (53 + e')) : roundNatFrom fuel e b = b := by
  induction fuel generalizing e with
  | zero => rfl
  | succ fuel ih =>
    unfold roundNatFrom
    split
    · exact roundHalfEven_of_dvd (Nat.pos_pow_of_pos e (by decide))
        (Nat.dvd_trans (Nat.pow_dvd_pow 2 he) hdvd)
    · rename_i hge
      have hne : e ≠ e' := by
        rintro rfl
        exact hge hlt
      exact ih (e + 1) (by omega)

theorem roundNatFrom_shape (fuel e a : Nat) :
    roundNatFrom fuel e a = a ∨
      ∃ e', e ≤ e' ∧ 2 ^ e' ∣ roundNatFrom fuel e a ∧ roundNatFrom fuel e a < 2 ^ (53 + e') := by
  induction fuel generalizing e with
  | zero => exact Or.inl rfl
  | succ fuel ih =>
    unfold roundNatFrom
    split
    · rename_i hlt
      right
      rcases Nat.lt_or_eq_of_le (roundHalfEven_le_top a e hlt) with h | h
      · exact ⟨e, Nat.le_refl _, roundHalfEven_dvd _ _, h⟩
      · refine ⟨e + 1, Nat.le_succ _, ?_, ?_⟩
        · rw [h]
          exact Nat.pow_dvd_pow 2 (by omega)
        · rw [h]
          exact Nat.pow_lt_pow_right (by decide) (by omega)
    · rcases ih (e + 1) with h | ⟨e', he, hdvd, hlt⟩
      · exact Or.inl h
      · exact Or.inr ⟨e', by omega, hdvd, hlt⟩

theorem roundNatFrom_idem (fuel a : Nat) :
    roundNatFrom fuel 0 (roundNatFrom fuel 0 a) = roundNatFrom fuel 0 a := by
  rcases roundNatFrom_shape fuel 0 a with h | ⟨e', he, hdvd, hlt⟩
  · rw [h, h]
  · exact roundNatFrom_fixed fuel 0 e' _ he hdvd hlt

theorem roundDouble_idem (n : Int) : roundDouble (roundDouble n) = roundDouble n := by
  have hzero : roundNatFrom 1024 0 0 = 0 := by decide
  by_cases hn : 0 ≤ n
  · have h1 : roundDouble n = (roundNatFrom 1024 0 n.toNat : Nat) := by
      unfold roundDouble
      rw [if_pos hn]
    rw [h1]
    unfold roundDouble
    rw [if_pos (Int.ofNat_nonneg _), Int.toNat_ofNat, roundNatFrom_idem]
  · have h1 : roundDouble n = -((roundNatFrom 1024 0 (-n).toNat : Nat) : Int) := by
      unfold roundDouble
      rw [if_neg hn]
    rw [h1]
    by_cases hb : roundNatFrom 1024 0 (-n).toNat = 0
    · rw [hb]
      unfold roundDouble
      simp [hzero]
    · have hneg : ¬ (0 : Int) ≤ -((roundNatFrom 1024 0 (-n).toNat : Nat) : Int) := by omega
      unfold roundDouble
      rw [if_neg hneg, neg_neg, Int.toNat_ofNat, roundNatFrom_idem]

set_option maxRecDepth 4000 in
theorem roundDouble_landmarks :
    roundDouble (2 ^ 63) = 2 ^ 63 ∧ roundDouble (-(2 ^ 63)) = -(2 ^ 63) ∧
    roundDouble (2 ^ 120 + 2 ^ 63) = 2 ^ 120 ∧
    roundDouble (-(2 ^ 120) + -(2 ^ 63)) = -(2 ^ 120) := by
  decide

theorem roundDouble_within {x : Int} (h : -(2 ^ 63) ≤ x ∧ x ≤ 2 ^ 63) :
    -(2 ^ 63) ≤ roundDouble x ∧ roundDouble x ≤ 2 ^ 63 := by
  have h1 := roundDouble_mono h.1
  have h2 := roundDouble_mono h.2
  rw [roundDouble_landmarks.2.1] at h1
  rw [roundDouble_landmarks.1] at h2
  exact ⟨h1, h2⟩

theorem roundDouble_absorbs {x y : Int} (hx : -(2 ^ 120) ≤ x ∧ x ≤ 2 ^ 120)
    (hy : -(2 ^ 63) ≤ y ∧ y ≤ 2 ^ 63) :
    -(2 ^ 120) ≤ roundDouble (x + y) ∧ roundDouble (x + y) ≤ 2 ^ 120 := by
  have h1 : roundDouble (-(2 ^ 120) + -(2 ^ 63)) ≤ roundDouble (x + y) :=
    roundDouble_mono (by omega)
  have h2 : roundDouble (x + y) ≤ roundDouble (2 ^ 120 + 2 ^ 63) :=
    roundDouble_mono (by omega)
  rw [roundDouble_landmarks.2.2.2] at h1
  rw [roundDouble_landmarks.2.2.1] at h2
  exact ⟨h1, h2⟩

/-! ### The upsert of one call -/

theorem addDailyPages_filter_key (c : Clock) (user : Nat) (pages : PageDelta) (s : Store) :
    (addDailyPages c user pages s).daily_reading.filter
        (fun r => r.user_id = user ∧ r.date = c.today) =
      if s.daily_reading.filter (fun r => r.user_id = user ∧ r.date = c.today) = [] then
        [⟨user, c.today, (integerAffinity (bindNumber (roundDouble pages.val))).value,
          (integerAffinity (bindNumber (roundDouble pages.val))).real⟩]
      else (s.daily_reading.filter (fun r => r.user_id = user ∧ r.date = c.today)).map
        (fun r => r.setNumber
          (integerAffinity (sqlAdd r.number (bindNumber (roundDouble pages.val))))) := by
  simp only [addDailyPages]
  by_cases h : s.daily_reading.any (fun r => decide (r.user_id = user ∧ r.date = c.today)) = true
  · have hne : s.daily_reading.filter
        (fun r => decide (r.user_id = user ∧ r.date = c.today)) ≠ [] := by
      intro he
      rw [← any_eq_false_iff_filter, h] at he
      cases he
    rw [if_pos h, if_neg hne]
    exact filter_map_ite_pos (fun r : DailyReading => r.user_id = user ∧ r.date = c.today)
      (fun r => r.setNumber
        (integerAffinity (sqlAdd r.number (bindNumber (roundDouble pages.val)))))
      (fun a ha => ha) s.daily_reading
  · have he : s.daily_reading.filter
        (fun r => decide (r.user_id = user ∧ r.date = c.today)) = [] := by
      rw [← any_eq_false_iff_filter]
      simpa using h
    rw [if_neg h, if_pos he, List.filter_append, he]
    simp

theorem addDailyPages_filter_other (c : Clock) (user : Nat) (pages : PageDelta) (s : Store) :
    (addDailyPages c user pages s).daily_reading.filter
        (fun r => !(r.user_id = user ∧ r.date = c.today)) =
      s.daily_reading.filter (fun r => !(r.user_id = user ∧ r.date = c.today)) := by
  simp only [addDailyPages]
  split
  · exact filter_map_ite_neg (fun r : DailyReading => r.user_id = user ∧ r.date = c.today)
      (fun r => r.setNumber
        (integerAffinity (sqlAdd r.number (bindNumber (roundDouble pages.val)))))
      (fun a ha => ha) s.daily_reading
  · rw [List.filter_append]
    simp

/-- One call in the range where the arithmetic is exact: a new row takes the
delta, an `INTEGER` row takes the sum. -/
theorem addDailyPages_exact (c : Clock) (user : Nat) (p : PageDelta) (s : Store) :
    (s.daily_reading.filter (fun r => r.user_id = user ∧ r.date = c.today) = [] →
      p.val.natAbs < 2 ^ 53 →
      (addDailyPages c user p s).daily_reading.filter
        (fun r => r.user_id = user ∧ r.date = c.today) = [⟨user, c.today, p.val, false⟩]) ∧
    (∀ r, s.daily_reading.filter (fun r => r.user_id = user ∧ r.date = c.today) = [r] →
      r.pages_real = false → r.pages_read.natAbs + p.val.natAbs < 2 ^ 53 →
      (addDailyPages c user p s).daily_reading.filter
        (fun r => r.user_id = user ∧ r.date = c.today) =
          [⟨r.user_id, r.date, r.pages_read + p.val, false⟩]) := by
  constructor
  · intro hnone hp
    rw [addDailyPages_filter_key, if_pos hnone, roundDouble_of_small _ hp,
      integerAffinity_bind_small _ hp]
  · intro r hrow hint hsafe
    rw [addDailyPages_filter_key, hrow, if_neg (List.cons_ne_nil _ _),
      roundDouble_of_small p.val (by omega)]
    have hnum : r.number = ⟨false, r.pages_read⟩ := by
      simp [DailyReading.number, hint]
    simp only [List.map_cons, List.map_nil, hnum, integerAffinity_add_small _ _ hsafe,
      DailyReading.setNumber]

theorem daily_after_calls (user : Nat) (d : String) (calls : List (Clock × PageDelta))
    (s : Store) (r : DailyReading)
    (hrow : s.daily_reading.filter (fun r => r.user_id = user ∧ r.date = d) = [r])
    (hint : r.pages_real = false)
    (hd : ∀ u ∈ calls, u.1.today = d)
    (hsafe : r.pages_read.natAbs + (calls.map (fun u => u.2.val.natAbs)).sum < 2 ^ 53) :
    (run s (calls.map (fun u => Request.addDailyPages u.1 user u.2))).daily_reading.filter
        (fun r => r.user_id = user ∧ r.date = d) =
      [⟨r.user_id, r.date, r.pages_read + (calls.map (fun u => u.2.val)).sum, false⟩] := by
  induction calls generalizing s r with
  | nil =>
    cases r
    simp only [run, List.map_nil, List.foldl_nil, List.sum_nil, add_zero] at hint ⊢
    rw [hrow, hint]
  | cons u calls ih =>
    have hu := hd u (List.mem_cons_self _ _)
    simp only [List.map_cons, List.sum_cons] at hsafe
    rw [List.map_cons, run_cons]
    simp only [step]
    have h1 := (addDailyPages_exact u.1 user u.2 s).2 r (by rw [hu]; exact hrow) hint
      (by omega)
    rw [hu] at h1
    rw [ih _ _ h1 rfl (fun u' hu' => hd u' (List.mem_cons_of_mem _ hu'))
      (by simp only; omega)]
    simp only [List.map_cons, List.sum_cons, add_assoc]

/-- C8, as the code has it. `addDailyPages` sums deltas as long as the server's
arithmetic is exact. With no row for `(user, date)`, a call with a delta `p`
below `2 ^ 53` in magnitude creates the row with `pages_read = p`; with an
`INTEGER` row, a call adds its delta to it when the magnitudes of the stored
value and the delta together stay below `2 ^ 53`; either way the rows of other
keys are kept. Hence, starting with no row for `(user, date)`, the calls for a
non-empty list of integer deltas (negative and zero included) whose magnitudes
add up to less than `2 ^ 53`, made on that date in any order, leave exactly one
row for `(user, date)`, whose `pages_read` is the sum of the deltas. -/
theorem addDailyPages_sums (user : Nat) (d : String) (s : Store)
    (hnone : s.daily_reading.filter (fun r => r.user_id = user ∧ r.date = d) = [])
    (calls calls' : List (Clock × PageDelta)) (hne : calls ≠ []) (hperm : calls'.Perm calls)
    (hd : ∀ u ∈ calls, u.1.today = d)
    (hsafe : (calls.map (fun u => u.2.val.natAbs)).sum < 2 ^ 53) :
    (run s (calls'.map (fun u => Request.addDailyPages u.1 user u.2))).daily_reading.filter
        (fun r => r.user_id = user ∧ r.date = d) =
      [⟨user, d, (calls.map (fun u => u.2.val)).sum, false⟩] ∧
    (∀ (c : Clock) (p : PageDelta), c.today = d → p.val.natAbs < 2 ^ 53 →
      (addDailyPages c user p s).daily_reading.filter
        (fun r => r.user_id = user ∧ r.date = d) = [⟨user, d, p.val, false⟩]) ∧
    (∀ (c : Clock) (p : PageDelta) (s0 : Store) (r : DailyReading), c.today = d →
      s0.daily_reading.filter (fun r => r.user_id = user ∧ r.date = d) = [r] →
      r.pages_real = false → r.pages_read.natAbs + p.val.natAbs < 2 ^ 53 →
      (addDailyPages c user p s0).daily_reading.filter
        (fun r => r.user_id = user ∧ r.date = d) =
          [⟨r.user_id, r.date, r.pages_read + p.val, false⟩]) ∧
    (∀ (c : Clock) (p : PageDelta) (s0 : Store), c.today = d →
      (addDailyPages c user p s0).daily_reading.filter
        (fun r => !(r.user_id = user ∧ r.date = d)) =
      s0.daily_reading.filter (fun r => !(r.user_id = user ∧ r.date = d))) := by
  have hfirst : ∀ (c : Clock) (p : PageDelta), c.today = d → p.val.natAbs < 2 ^ 53 →
      (addDailyPages c user p s).daily_reading.filter
        (fun r => r.user_id = user ∧ r.date = d) = [⟨user, d, p.val, false⟩] := by
    intro c p hc hp
    have h1 := (addDailyPages_exact c user p s).1
    rw [hc] at h1
    exact h1 hnone hp
  refine ⟨?_, hfirst, ?_, ?_⟩
  · have hd' : ∀ u ∈ calls', u.1.today = d := fun u hu => hd u (hperm.mem_iff.1 hu)
    have hsum : (calls.map (fun u => u.2.val)).sum = (calls'.map (fun u => u.2.val)).sum :=
      ((hperm.map (fun u => u.2.val)).sum_eq).symm
    have hsafe' : (calls'.map (fun u => u.2.val.natAbs)).sum < 2 ^ 53 := by
      rw [(hperm.map (fun u => u.2.val.natAbs)).sum_eq]
      exact hsafe
    rw [hsum]
    cases hc : calls' with
    | nil =>
      rw [hc] at hperm
      exact absurd hperm.symm.eq_nil hne
    | cons u rest =>
      rw [hc] at hd' hsafe'
      simp only [List.map_cons, List.sum_cons] at hsafe'
      rw [List.map_cons, run_cons]
      simp only [step]
      rw [daily_after_calls user d rest _ _
        (hfirst u.1 u.2 (hd' u (List.mem_cons_self _ _)) (by omega)) rfl
        (fun u' hu' => hd' u' (List.mem_cons_of_mem _ hu')) (by simp only; omega)]
      simp only [List.map_cons, List.sum_cons]
  · intro c p s0 r hc hrow hint hs
    have h1 := (addDailyPages_exact c user p s0).2 r
    rw [hc] at h1
    exact h1 hrow hint hs
  · intro c p s0 hc
    have h1 := addDailyPages_filter_other c user p s0
    rw [hc] at h1
    exact h1

set_option maxRecDepth 4000 in
/-- C8, the claim as stated fails: for the deltas `2 ^ 62`, `2 ^ 62` and `1`,
sent for one user on one date starting with no row, the row stored is the `REAL`
`2 ^ 63`, not the sum `2 ^ 63 + 1`: the second addition leaves the 64-bit
integers and the third is absorbed by the rounding of doubles. And the single
delta `2 ^ 53 + 1`, which is not a JavaScript number, creates the row with
`pages_read = 2 ^ 53`. -/
theorem addDailyPages_overflow_counterexample :
    (run (emptyStore [⟨2, "bob", none⟩])
        [.addDailyPages (clockAt "t1") 2 ⟨2 ^ 62, by decide⟩,
          .addDailyPages (clockAt "t2") 2 ⟨2 ^ 62, by decide⟩,
          .addDailyPages (clockAt "t3") 2 ⟨1, by decide⟩]).daily_reading =
      [⟨2, "2026-11-06", 2 ^ 63, true⟩] ∧
    ((2 : Int) ^ 62 + 2 ^ 62 + 1 ≠ 2 ^ 63) ∧
    (addDailyPages (clockAt "t1") 2 ⟨2 ^ 53 + 1, by decide⟩
        (emptyStore [⟨2, "bob", none⟩])).daily_reading =
      [⟨2, "2026-11-06", 2 ^ 53, false⟩] ∧
    ((2 : Int) ^ 53 + 1 ≠ 2 ^ 53) := by
  decide

theorem addDailyPages_sums_witness :
    (emptyStore [⟨2, "bob", none⟩]).daily_reading.filter
        (fun r => r.user_id = 2 ∧ r.date = "2026-11-06") = [] ∧
    (run (emptyStore [⟨2, "bob", none⟩])
        [.addDailyPages (clockAt "t2") 2 ⟨15, by decide⟩,
          .addDailyPages (clockAt "t3") 2 ⟨-5, by decide⟩,
          .addDailyPages (clockAt "t1") 2 ⟨20, by decide⟩]).daily_reading.filter
        (fun r => r.user_id = 2 ∧ r.date = "2026-11-06") = [⟨2, "2026-11-06", 30, false⟩] :=
  ⟨by decide,
    (addDailyPages_sums 2 "2026-11-06" (emptyStore [⟨2, "bob", none⟩]) (by decide)
      [(clockAt "t1", ⟨20, by decide⟩), (clockAt "t2", ⟨15, by decide⟩),
        (clockAt "t3", ⟨-5, by decide⟩)]
      [(clockAt "t2", ⟨15, by decide⟩), (clockAt "t3", ⟨-5, by decide⟩),
        (clockAt "t1", ⟨20, by decide⟩)]
      (by decide) (by decide)
      (fun u hu => by
        simp only [List.mem_cons, List.mem_singleton, List.mem_nil_iff, or_false] at hu
        rcases hu with rfl | rfl | rfl <;> rfl)
      (by decide)).1⟩

/-! ### The numbers that reach `daily_reading` -/

theorem storable_integerAffinity {x : SqlNumber}
    (hint : x.real = false → -(2 ^ 63) ≤ x.value ∧ x.value < 2 ^ 63)
    (hreal : x.real = true → roundDouble x.value = x.value)
    (hb : -(2 ^ 120) ≤ x.value ∧ x.value ≤ 2 ^ 120) :
    (integerAffinity x).Storable := by
  unfold integerAffinity
  split
  · rename_i h
    have h1 := h.2.1
    have h2 := h.2.2
    exact ⟨fun _ => ⟨by dsimp only; omega, by dsimp only; omega⟩,
      fun h' => Bool.noConfusion h', hb⟩
  · rename_i h
    exact ⟨hint, fun hr => ⟨hreal hr, fun h' => h ⟨hr, h'⟩⟩, hb⟩

theorem realValue_bind_within (p : PageDelta) :
    -(2 ^ 63) ≤ realValue (bindNumber (roundDouble p.val)) ∧
      realValue (bindNumber (roundDouble p.val)) ≤ 2 ^ 63 := by
  have hp : -(2 ^ 63) ≤ p.val ∧ p.val ≤ 2 ^ 63 := ⟨p.property.1, by have := p.property.2; omega⟩
  have h1 := roundDouble_within hp
  unfold bindNumber realValue
  split
  · exact roundDouble_within h1
  · exact h1

theorem storable_bind (p : PageDelta) :
    (integerAffinity (bindNumber (roundDouble p.val))).Storable := by
  have hp : -(2 ^ 63) ≤ p.val ∧ p.val ≤ 2 ^ 63 := ⟨p.property.1, by have := p.property.2; omega⟩
  have h1 := roundDouble_within hp
  apply storable_integerAffinity
  · unfold bindNumber
    split
    · intro _
      dsimp only
      constructor <;> omega
    · intro h
      exact Bool.noConfusion h
  · intro _
    unfold bindNumber
    split <;> exact roundDouble_idem _
  · unfold bindNumber
    split <;> dsimp only <;> constructor <;> omega

theorem storable_add {a : SqlNumber} (ha : a.Storable) (p : PageDelta) :
    (integerAffinity (sqlAdd a (bindNumber (roundDouble p.val)))).Storable := by
  have hb := realValue_bind_within p
  have hra : -(2 ^ 120) ≤ realValue a ∧ realValue a ≤ 2 ^ 120 := by
    unfold realValue
    split
    · exact ha.2.2
    · rename_i hr
      have hr' : a.real = false := by simpa using hr
      have h1 := ha.1 hr'
      have h2 := roundDouble_within (x := a.value) ⟨h1.1, by omega⟩
      constructor <;> omega
  apply storable_integerAffinity
  · unfold sqlAdd
    split
    · rename_i h
      intro _
      exact h.2
    · intro h
      exact Bool.noConfusion h
  · unfold sqlAdd
    split
    · intro h
      exact Bool.noConfusion h
    · intro _
      exact roundDouble_idem _
  · unfold sqlAdd
    split
    · rename_i h
      have := h.2
      dsimp only
      constructor <;> omega
    · exact roundDouble_absorbs hra hb

theorem dailyNumbers_addDailyPages (c : Clock) (user : Nat) (pages : PageDelta) {s : Store}
    (h : s.DailyNumbers) : (addDailyPages c user pages s).DailyNumbers := by
  intro r hr
  simp only [addDailyPages] at hr
  split at hr
  · obtain ⟨r0, hr0, rfl⟩ := List.mem_map.1 hr
    split
    · exact storable_add (h r0 hr0) pages
    · exact h r0 hr0
  · rcases List.mem_append.1 hr with hr | hr
    · exact h r hr
    · rw [List.mem_singleton] at hr
      rw [hr]
      exact storable_bind pages

theorem dailyNumbers_step {s : Store} (h : s.DailyNumbers) (r : Request) :
    (step s r).DailyNumbers := by
  cases r with
  | addItem c user b =>
    simp only [step]
    split
    · rename_i s' hok
      have : s'.daily_reading = s.daily_reading := by
        unfold addItem at hok
        split at hok
        · cases hok
          rfl
        · cases hok
      intro r hr
      exact h r (this ▸ hr)
    · exact h
  | updateItem c user id b =>
    simp only [step]
    split
    · rename_i s' hok
      have : s'.daily_reading = s.daily_reading := by
        unfold updateItem at hok
        split at hok
        · cases hok
        · split at hok
          · cases hok
            rfl
          · cases hok
      intro r hr
      exact h r (this ▸ hr)
    · exact h
  | deleteItem user id => exact h
  | addDailyPages c user pages => exact dailyNumbers_addDailyPages c user pages h

/-- In every store reached from a store without daily rows, every `pages_read`
of `daily_reading` is a number that SQLite can hold there: a 64-bit `INTEGER`,
or a `REAL` that is a double outside the range that the column converts, and
never more than `2 ^ 120` in magnitude. -/
theorem dailyNumbers_run (users : List User) (reqs : List Request) :
    (run (emptyStore users) reqs).DailyNumbers := by
  have hgen : ∀ (reqs : List Request) (s : Store), s.DailyNumbers → (run s reqs).DailyNumbers := by
    intro reqs
    induction reqs with
    | nil => exact fun s hs => hs
    | cons r reqs ih => exact fun s hs => ih _ (dailyNumbers_step hs r)
  exact hgen reqs _ (fun r hr => by cases hr)

/-! ## Leaderboards -/

theorem orderByDesc_perm {α : Type} (key : α → Int) (l : List α) :
    (orderByDesc key l).Perm l :=
  List.perm_insertionSort _ l

theorem orderByDesc_sorted {α : Type} (key : α → Int) (l : List α) :
    (orderByDesc key l).Pairwise (fun a b => key b ≤ key a) := by
  haveI : IsTotal α (fun a b => key b ≤ key a) := ⟨fun a b => le_total (key b) (key a)⟩
  haveI : IsTrans α (fun a b => key b ≤ key a) := ⟨fun a b c hab hbc => le_trans hbc hab⟩
  exact List.sorted_insertionSort (fun a b => key b ≤ key a) l

theorem filter_id_eq_find (users : List User) (hpk : (users.map (·.id)).Nodup) (k : Nat) :
    users.filter (fun u => k = u.id) = (users.find? (fun u => u.id = k)).toList := by
  induction users with
  | nil => rfl
  | cons u us ih =>
    rw [List.map_cons, List.nodup_cons] at hpk
    by_cases hk : k = u.id
    · have hnone : us.filter (fun u => decide (k = u.id)) = [] := by
        rw [List.filter_eq_nil_iff]
        intro v hv hkv
        have hkv' : k = v.id := by simpa using hkv
        exact hpk.1 (List.mem_map.2 ⟨v, hv, hkv'.symm.trans hk⟩)
      rw [List.filter_cons, List.find?_cons, hnone]
      simp [hk]
    · have hk' : ¬ u.id = k := fun h => hk h.symm
      simp [List.filter_cons, List.find?_cons, hk, hk', ih hpk.2]

theorem join_users {ρ ε : Type} (users : List User) (hpk : (users.map (·.id)).Nodup)
    (uid : ρ → Nat) (mk : User → ρ → ε) (rows : List ρ) :
    rows.flatMap (fun r => (users.filter (fun u => uid r = u.id)).map (fun u => mk u r)) =
      rows.filterMap (fun r => (users.find? (fun u => u.id = uid r)).map (fun u => mk u r)) := by
  induction rows with
  | nil => rfl
  | cons r rows ih =>
    rw [List.flatMap_cons, List.filterMap_cons, ih, filter_id_eq_find users hpk]
    cases users.find? (fun u => u.id = uid r) <;> simp

theorem join_users_length {ρ ε : Type} (users : List User) (uid : ρ → Nat)
    (mk : User → ρ → ε) (rows : List ρ) (hfk : ∀ r ∈ rows, ∃ u ∈ users, u.id = uid r) :
    (rows.filterMap
      (fun r => (users.find? (fun u => u.id = uid r)).map (fun u => mk u r))).length =
      rows.length := by
  induction rows with
  | nil => rfl
  | cons r rows ih =>
    obtain ⟨u, hu, hid⟩ := hfk r (List.mem_cons_self _ _)
    have hsome : (users.find? (fun u => u.id = uid r)).isSome = true := by
      rw [List.find?_isSome]
      exact ⟨u, hu, by simpa using hid⟩
    obtain ⟨v, hv⟩ := Option.isSome_iff_exists.1 hsome
    rw [List.filterMap_cons, hv]
    simp [ih (fun r' hr' => hfk r' (List.mem_cons_of_mem _ hr'))]

/-- C9. When `users.id` is a key and every row of `daily_reading` refers to a
stored user, `dailyReadingLeaderboard` returns, up to order, the rows of
`daily_reading` dated today, each joined with the username and profile picture
of its user and carrying the stored `pages_read` as the JavaScript number it
is read into: one entry for each such row, none for a row of another date; and
its entries are in non-increasing order of `pages_read`. -/
theorem dailyReadingLeaderboard_spec (c : Clock) (s : Store)
    (hpk : (s.users.map (·.id)).Nodup)
    (hfk : ∀ dr ∈ s.daily_reading, ∃ u ∈ s.users, u.id = dr.user_id) :
    (dailyReadingLeaderboard c s).Perm
      ((s.daily_reading.filter (fun dr => dr.date = c.today)).filterMap (fun dr =>
        (s.users.find? (fun u => u.id = dr.user_id)).map (fun u =>
          (⟨u.username, u.profile_picture, roundDouble dr.pages_read⟩ : DailyEntry)))) ∧
    (dailyReadingLeaderboard c s).length =
      (s.daily_reading.filter (fun dr => dr.date = c.today)).length ∧
    (dailyReadingLeaderboard c s).Pairwise (fun a b => b.pages_read ≤ a.pages_read) := by
  have hperm : (dailyReadingLeaderboard c s).Perm
      ((s.daily_reading.filter (fun dr => dr.date = c.today)).filterMap (fun dr =>
        (s.users.find? (fun u => u.id = dr.user_id)).map (fun u =>
          (⟨u.username, u.profile_picture, roundDouble dr.pages_read⟩ : DailyEntry)))) := by
    rw [← join_users s.users hpk (fun dr : DailyReading => dr.user_id)
      (fun u dr => (⟨u.username, u.profile_picture, roundDouble dr.pages_read⟩ : DailyEntry))]
    unfold dailyReadingLeaderboard
    refine ((orderByDesc_perm _ _).map _).trans (List.Perm.of_eq ?_)
    simp only [List.map_flatMap, List.map_map, Function.comp_def]
  refine ⟨hperm, ?_, ?_⟩
  · rw [hperm.length_eq]
    exact join_users_length s.users (fun dr : DailyReading => dr.user_id) _ _
      (fun r hr => hfk r (List.mem_of_mem_filter hr))
  · unfold dailyReadingLeaderboard
    exact (orderByDesc_sorted _ _).map _ (fun _ _ h => roundDouble_mono h)

theorem dailyReadingLeaderboard_spec_witness :
    (readingDay.users.map (·.id)).Nodup ∧
    (∀ dr ∈ readingDay.daily_reading, ∃ u ∈ readingDay.users, u.id = dr.user_id) ∧
    dailyReadingLeaderboard (clockAt "t4") readingDay =
      [⟨"bob", none, 35⟩, ⟨"cy", some "/uploads/cy.png", 30⟩] ∧
    (dailyReadingLeaderboard (clockAt "t4") readingDay).Pairwise
      (fun a b => b.pages_read ≤ a.pages_read) :=
  ⟨by decide, by decide, by decide,
    (dailyReadingLeaderboard_spec (clockAt "t4") readingDay (by decide) (by decide)).2.2⟩

theorem annualLeaderboard_valid (c : Clock) (category : String) (s : Store)
    (hcat : category ∈ validCategories) :
    annualLeaderboard c category s = .ok (orderByDesc AnnualEntry.count
      ((s.annual_stats.filter (fun a => a.year = c.year)).flatMap (fun a =>
        (s.users.filter (fun u => a.user_id = u.id)).map (fun u =>
          (⟨u.username, u.profile_picture, a.get (columnOfCategory category)⟩ :
            AnnualEntry))))) := by
  unfold annualLeaderboard
  have : validCategories.contains category = true := by simpa using hcat
  simp only [this, Bool.not_true, Bool.false_eq_true, if_false]

/-- C10. For each of the categories `books_read`, `comics_read`,
`movies_watched` and `tv_shows_finished`, when `users.id` is a key and every row
of `annual_stats` refers to a stored user, `annualLeaderboard` succeeds and
returns, up to order, the rows of `annual_stats` of the current year, each joined
with the username and profile picture of its user and with `count` the row's
counter of that name: one entry for each such row; and its entries are in
non-increasing order of `count`. -/
theorem annualLeaderboard_spec (c : Clock) (category : String) (s : Store)
    (hcat : category ∈ ["books_read", "comics_read", "movies_watched", "tv_shows_finished"])
    (hpk : (s.users.map (·.id)).Nodup)
    (hfk : ∀ a ∈ s.annual_stats, ∃ u ∈ s.users, u.id = a.user_id) :
    ∃ entries, annualLeaderboard c category s = .ok entries ∧
      entries.Perm
        ((s.annual_stats.filter (fun a => a.year = c.year)).filterMap (fun a =>
          (s.users.find? (fun u => u.id = a.user_id)).map (fun u =>
            (⟨u.username, u.profile_picture,
              if category = "books_read" then a.books_read
              else if category = "comics_read" then a.comics_read
              else if category = "movies_watched" then a.movies_watched
              else a.tv_shows_finished⟩ : AnnualEntry)))) ∧
      entries.length = (s.annual_stats.filter (fun a => a.year = c.year)).length ∧
      entries.Pairwise (fun a b => b.count ≤ a.count) := by
  have hget : ∀ a : AnnualStats, a.get (columnOfCategory category) =
      if category = "books_read" then a.books_read
      else if category = "comics_read" then a.comics_read
      else if category = "movies_watched" then a.movies_watched
      else a.tv_shows_finished := by
    intro a
    unfold columnOfCategory
    split_ifs <;> rfl
  refine ⟨_, annualLeaderboard_valid c category s hcat, ?_⟩
  have hjoin : ((s.annual_stats.filter (fun a => a.year = c.year)).flatMap (fun a =>
      (s.users.filter (fun u => a.user_id = u.id)).map (fun u =>
        (⟨u.username, u.profile_picture, a.get (columnOfCategory category)⟩ : AnnualEntry)))) =
      (s.annual_stats.filter (fun a => a.year = c.year)).filterMap (fun a =>
        (s.users.find? (fun u => u.id = a.user_id)).map (fun u =>
          (⟨u.username, u.profile_picture,
            if category = "books_read" then a.books_read
            else if category = "comics_read" then a.comics_read
            else if category = "movies_watched" then a.movies_watched
            else a.tv_shows_finished⟩ : AnnualEntry))) := by
    rw [join_users s.users hpk (fun a : AnnualStats => a.user_id)
      (fun u a => (⟨u.username, u.profile_picture, a.get (columnOfCategory category)⟩ :
        AnnualEntry))]
    simp only [hget]
  have hperm := orderByDesc_perm AnnualEntry.count
    ((s.annual_stats.filter (fun a => a.year = c.year)).flatMap (fun a =>
      (s.users.filter (fun u => a.user_id = u.id)).map (fun u =>
        (⟨u.username, u.profile_picture, a.get (columnOfCategory category)⟩ : AnnualEntry))))
  refine ⟨hperm.trans (by rw [hjoin]), ?_, orderByDesc_sorted _ _⟩
  rw [hperm.length_eq, hjoin]
  exact join_users_length s.users (fun a : AnnualStats => a.user_id) _ _
    (fun r hr => hfk r (List.mem_of_mem_filter hr))

theorem annualLeaderboard_spec_witness :
    (statsYear.users.map (·.id)).Nodup ∧
    (∀ a ∈ statsYear.annual_stats, ∃ u ∈ statsYear.users, u.id = a.user_id) ∧
    annualLeaderboard (clockAt "t") "movies_watched" statsYear =
      .ok [⟨"bob", none, 4⟩, ⟨"cy", some "/uploads/cy.png", 0⟩] ∧
    ∃ entries, annualLeaderboard (clockAt "t") "movies_watched" statsYear = .ok entries ∧
      entries.length = 2 ∧ entries.Pairwise (fun a b => b.count ≤ a.count) :=
  ⟨by decide, by decide, rfl,
    (annualLeaderboard_spec (clockAt "t") "movies_watched" statsYear (by decide) (by decide)
      (by decide)).imp (fun _ h => ⟨h.1, h.2.2.1, h.2.2.2⟩)⟩

/-! ## Errors and lenient non-errors -/

/-- C11. `annualLeaderboard(category)` fails if and only if `category` is not
one of `books_read`, `comics_read`, `movies_watched`, `tv_shows_finished`; its
only error is the validation error, status 400; and for such a category the
answer is that error whatever the store holds: no table is read. The handler
returns no store, so no state changes. -/
theorem annualLeaderboard_fails_iff (c : Clock) (category : String) (s : Store) :
    ((∃ e, annualLeaderboard c category s = .error e) ↔
      category ∉ ["books_read", "comics_read", "movies_watched", "tv_shows_finished"]) ∧
    (∀ e, annualLeaderboard c category s = .error e → e = .badRequest ∧ e.code = 400) ∧
    (category ∉ ["books_read", "comics_read", "movies_watched", "tv_shows_finished"] →
      ∀ s', annualLeaderboard c category s' = .error .badRequest) := by
  by_cases hcat : category ∈ validCategories
  · have hok := annualLeaderboard_valid c category s hcat
    refine ⟨⟨?_, fun h => absurd hcat h⟩, ?_, fun h => absurd hcat h⟩
    · rintro ⟨e, he⟩
      rw [hok] at he
      cases he
    · intro e he
      rw [hok] at he
      cases he
  · have hbad : ∀ s', annualLeaderboard c category s' = .error .badRequest := by
      intro s'
      unfold annualLeaderboard
      have : validCategories.contains category = false := by simpa using hcat
      simp only [this, Bool.not_false, if_true]
    refine ⟨⟨fun _ => hcat, fun _ => ⟨_, hbad s⟩⟩, ?_, fun _ => hbad⟩
    intro e he
    rw [hbad s] at he
    cases he
    exact ⟨rfl, rfl⟩

theorem annualLeaderboard_fails_iff_witness :
    annualLeaderboard (clockAt "t") "invalid_cat" statsYear = .error .badRequest :=
  (annualLeaderboard_fails_iff (clockAt "t") "invalid_cat" statsYear).2.2 (by decide) statsYear

theorem findOwned_eq_none {user id : Nat} {items : List MediaItem} :
    findOwned user id items = none ↔ ∀ it ∈ items, ¬ (it.id = id ∧ it.user_id = user) := by
  unfold findOwned
  rw [List.find?_eq_none]
  simp

/-- C13. When no stored item has the id and the owner of the request (the id
being absent, or stored for another user), `updateItem` fails with the not-found
error, status 404, and the store (media items, daily reading and annual
statistics) stays as it was. -/
theorem updateItem_not_owned (c : Clock) (user id : Nat) (b : UpdateBody) (s : Store)
    (h : ∀ it ∈ s.media_items, ¬ (it.id = id ∧ it.user_id = user)) :
    updateItem c user id b s = .error .notFound ∧ ApiError.notFound.code = 404 ∧
      step s (.updateItem c user id b) = s := by
  have hnone := findOwned_eq_none.2 h
  have herr : updateItem c user id b s = .error .notFound := by
    unfold updateItem
    rw [hnone]
  refine ⟨herr, rfl, ?_⟩
  simp only [step, herr]

theorem updateItem_not_owned_witness :
    (∃ it ∈ oneBook.media_items, it.id = 1 ∧ it.user_id = 1) ∧
    (∀ it ∈ oneBook.media_items, ¬ (it.id = 1 ∧ it.user_id = 2)) ∧
    updateItem (clockAt "t1") 2 1 (duneUpdate true) oneBook = .error .notFound ∧
    step oneBook (.updateItem (clockAt "t1") 2 1 (duneUpdate true)) = oneBook :=
  ⟨by decide, by decide,
    (updateItem_not_owned (clockAt "t1") 2 1 (duneUpdate true) oneBook (by decide)).1,
    (updateItem_not_owned (clockAt "t1") 2 1 (duneUpdate true) oneBook (by decide)).2.2⟩

/-- C14. `deleteItem` has no error answer. If no item with that id is owned by
the caller the store is left as it was; otherwise (in a store satisfying the
schema constraints) the owned item is removed from `media_items` and every other
row and table is kept; and deleting a second time changes nothing more. -/
theorem deleteItem_lenient (user id : Nat) (s : Store) :
    (findOwned user id s.media_items = none → deleteItem user id s = s) ∧
    (∀ item, s.WF → findOwned user id s.media_items = some item →
      (deleteItem user id s).media_items = s.media_items.erase item ∧
      (deleteItem user id s).media_items.length + 1 = s.media_items.length) ∧
    ((deleteItem user id s).users = s.users ∧ (deleteItem user id s).media_seq = s.media_seq ∧
      (deleteItem user id s).daily_reading = s.daily_reading ∧
      (deleteItem user id s).annual_stats = s.annual_stats) ∧
    deleteItem user id (deleteItem user id s) = deleteItem user id s := by
  refine ⟨?_, ?_, ⟨rfl, rfl, rfl, rfl⟩, ?_⟩
  · intro hnone
    have h := findOwned_eq_none.1 hnone
    have hf : s.media_items.filter (fun it => !decide (it.id = id ∧ it.user_id = user)) =
        s.media_items := by
      rw [List.filter_eq_self]
      intro it hit
      have := h it hit
      simp [this]
    cases s
    simp only [deleteItem] at hf ⊢
    rw [hf]
  · intro item hwf hfind
    obtain ⟨hmem, hid, hu⟩ := findOwned_some hfind
    have hnodup : s.media_items.Nodup := List.Nodup.of_map _ hwf.media_pk
    have herase : (deleteItem user id s).media_items = s.media_items.erase item := by
      simp only [deleteItem]
      rw [hnodup.erase_eq_filter]
      apply List.filter_congr
      intro it hit
      by_cases hk : it.id = id ∧ it.user_id = user
      · have : it = item := eq_of_mem_of_id_eq hwf.media_pk hit hmem (hk.1.trans hid.symm)
        subst this
        simp [hk]
      · have : it ≠ item := fun he => hk (he ▸ ⟨hid, hu⟩)
        simp [hk, this]
    refine ⟨herase, ?_⟩
    rw [herase, List.length_erase_of_mem hmem]
    have := List.length_pos_of_mem hmem
    omega
  · simp only [deleteItem, List.filter_filter, Bool.and_self]

theorem deleteItem_lenient_witness :
    findOwned 2 1 oneBook.media_items = none ∧ deleteItem 2 1 oneBook = oneBook ∧
    findOwned 1 1 twoBooks.media_items = some duneAdded ∧
    (deleteItem 1 1 twoBooks).media_items = [emmaAdded] :=
  ⟨by decide, (deleteItem_lenient 2 1 oneBook).1 (by decide), by decide,
    ((deleteItem_lenient 1 1 twoBooks).2.1 duneAdded
      (wf_run (wf_run (wf_emptyStore [⟨1, "ann", none⟩]) [.addItem (clockAt "t0") 1 duneBody])
        [.addItem (clockAt "t0") 1 emmaBody]) (by decide)).1⟩

/-! ## Adding an item -/

/-- C15. For an `addItem` call that supplies title, type and status, in a store
satisfying the schema constraints, the call succeeds and appends one row: it has
`is_finished = false`, `date_completed = NULL` and `pages_read = 0`, is owned by
the caller, carries the supplied title, type and status, and its id, which the
call returns, differs from the id of every item stored before. -/
theorem addItem_creates (c : Clock) (user : Nat) (b : NewItemBody) (s : Store)
    (title type status : String) (hwf : s.WF)
    (ht : b.title = some title) (hty : b.type = some type) (hst : b.status = some status) :
    ∃ id s' item, addItem c user b s = .ok (id, s') ∧
      s'.media_items = s.media_items ++ [item] ∧
      findOwned user id s'.media_items = some item ∧
      item.id = id ∧ item.user_id = user ∧
      item.title = title ∧ item.type = type ∧ item.status = status ∧
      item.is_finished = false ∧ item.date_completed = none ∧ item.pages_read = some 0 ∧
      ∀ it ∈ s.media_items, it.id ≠ id := by
  have hnew : ∀ it ∈ s.media_items, it.id ≠ s.media_seq + 1 := by
    intro it hit
    have := hwf.media_seq_bound it hit
    omega
  exact ⟨_, _, _, addItem_ok c user b s title type status ht hty hst, rfl,
    findOwned_append_new user (s.media_seq + 1) s.media_items _ ⟨rfl, rfl⟩ hnew,
    rfl, rfl, rfl, rfl, rfl, rfl, rfl, rfl, hnew⟩

theorem addItem_creates_witness :
    oneBook.WF ∧
    ∃ id s' item, addItem (clockAt "t0") 1 emmaBody oneBook = .ok (id, s') ∧
      s'.media_items = oneBook.media_items ++ [item] ∧
      findOwned 1 id s'.media_items = some item ∧
      item.id = id ∧ item.user_id = 1 ∧
      item.title = "Emma" ∧ item.type = "book" ∧ item.status = "readlist" ∧
      item.is_finished = false ∧ item.date_completed = none ∧ item.pages_read = some 0 ∧
      ∀ it ∈ oneBook.media_items, it.id ≠ id :=
  ⟨wf_run (wf_emptyStore [⟨1, "ann", none⟩]) [.addItem (clockAt "t0") 1 duneBody],
    addItem_creates (clockAt "t0") 1 emmaBody oneBook "Emma" "book" "readlist"
      (wf_run (wf_emptyStore [⟨1, "ann", none⟩]) [.addItem (clockAt "t0") 1 duneBody])
      rfl rfl rfl⟩

/-- C16, as the code has it. `addItem` fails exactly when title, type or status
is missing; the failure is the storage error, status 500, and stores nothing.
Every call that supplies the three is accepted, whatever the strings are. -/
theorem addItem_fails_iff_missing (c : Clock) (user : Nat) (b : NewItemBody) (s : Store) :
    ((∃ e, addItem c user b s = .error e) ↔
      (b.title = none ∨ b.type = none ∨ b.status = none)) ∧
    (∀ e, addItem c user b s = .error e →
      e = .serverError ∧ e.code = 500 ∧ step s (.addItem c user b) = s) ∧
    (∀ title type status, b.title = some title → b.type = some type →
      b.status = some status → ∃ id s', addItem c user b s = .ok (id, s')) := by
  have hok : ∀ title type status, b.title = some title → b.type = some type →
      b.status = some status → ∃ id s', addItem c user b s = .ok (id, s') :=
    fun title type status ht hty hst => ⟨_, _, addItem_ok c user b s title type status ht hty hst⟩
  have herr : (b.title = none ∨ b.type = none ∨ b.status = none) →
      addItem c user b s = .error .serverError := by
    intro h
    unfold addItem
    rcases h with h | h | h
    · rw [h]
    · rw [h]
      cases b.title <;> rfl
    · rw [h]
      cases b.title <;> cases b.type <;> rfl
  have hcases : (b.title = none ∨ b.type = none ∨ b.status = none) ∨
      ∃ title type status, b.title = some title ∧ b.type = some type ∧
        b.status = some status := by
    cases h1 : b.title with
    | none => exact Or.inl (Or.inl rfl)
    | some title =>
      cases h2 : b.type with
      | none => exact Or.inl (Or.inr (Or.inl rfl))
      | some type =>
        cases h3 : b.status with
        | none => exact Or.inl (Or.inr (Or.inr rfl))
        | some status => exact Or.inr ⟨title, type, status, rfl, rfl, rfl⟩
  refine ⟨⟨?_, fun h => ⟨_, herr h⟩⟩, ?_, hok⟩
  · rintro ⟨e, he⟩
    rcases hcases with h | ⟨title, type, status, ht, hty, hst⟩
    · exact h
    · obtain ⟨id, s', hs⟩ := hok title type status ht hty hst
      rw [hs] at he
      cases he
  · intro e he
    rcases hcases with h | ⟨title, type, status, ht, hty, hst⟩
    · have h' := herr h
      rw [h'] at he
      cases he
      refine ⟨rfl, rfl, ?_⟩
      simp only [step, h']
    · obtain ⟨id, s', hs⟩ := hok title type status ht hty hst
      rw [hs] at he
      cases he

/-- C16, the claim as stated fails: an item with the empty title and the type
`podcast` is accepted and stored, and a missing title is answered with the
storage error, not with the validation error. -/
theorem addItem_validation_counterexample :
    (∃ id s' item, addItem (clockAt "t0") 1 podcastBody (emptyStore []) = .ok (id, s') ∧
      s'.media_items = [item] ∧ item.title = "" ∧ item.type = "podcast" ∧
      item.type ∉ ["movie", "tv", "book", "comic"]) ∧
    addItem (clockAt "t0") 1 untitledBody (emptyStore []) = .error .serverError ∧
    addItem (clockAt "t0") 1 untitledBody (emptyStore []) ≠ .error .badRequest :=
  ⟨⟨1, _, _, rfl, rfl, rfl, rfl, by decide⟩, rfl, fun h => by cases h⟩

theorem addItem_fails_iff_missing_witness :
    untitledBody.title = none ∧
    ∃ e, addItem (clockAt "t0") 1 untitledBody oneBook = .error e :=
  ⟨rfl, (addItem_fails_iff_missing (clockAt "t0") 1 untitledBody oneBook).1.2 (Or.inl rfl)⟩

/-! ## Who appears on a leaderboard -/

/-- C12, as the code has it. A user appears on a leaderboard only through an
aggregate row: every entry of `dailyReadingLeaderboard` is a row of
`daily_reading` dated today joined with its user, and every entry of
`annualLeaderboard(category)` is a row of `annual_stats` of the current year
joined with its user, its count being the counter of that row. -/
theorem leaderboards_only_from_rows (c : Clock) (s : Store) :
    (∀ e ∈ dailyReadingLeaderboard c s, ∃ dr ∈ s.daily_reading, dr.date = c.today ∧
      ∃ u ∈ s.users, u.id = dr.user_id ∧
        e = ⟨u.username, u.profile_picture, roundDouble dr.pages_read⟩) ∧
    (∀ category entries, annualLeaderboard c category s = .ok entries →
      ∀ e ∈ entries, ∃ a ∈ s.annual_stats, a.year = c.year ∧
        ∃ u ∈ s.users, u.id = a.user_id ∧
          e = ⟨u.username, u.profile_picture, a.get (columnOfCategory category)⟩) := by
  constructor
  · intro e he
    unfold dailyReadingLeaderboard at he
    obtain ⟨row, hrow, rfl⟩ := List.mem_map.1 he
    rw [(orderByDesc_perm _ _).mem_iff] at hrow
    simp only [List.mem_flatMap, List.mem_filter, List.mem_map, decide_eq_true_eq] at hrow
    obtain ⟨dr, ⟨hdr, hdate⟩, u, ⟨hu, hid⟩, rfl⟩ := hrow
    exact ⟨dr, hdr, hdate, u, hu, hid.symm, rfl⟩
  · intro category entries hok e he
    by_cases hcat : category ∈ validCategories
    · rw [annualLeaderboard_valid c category s hcat] at hok
      cases hok
      rw [(orderByDesc_perm _ _).mem_iff] at he
      simp only [List.mem_flatMap, List.mem_filter, List.mem_map, decide_eq_true_eq] at he
      obtain ⟨a, ⟨ha, hyear⟩, u, ⟨hu, hid⟩, rfl⟩ := he
      exact ⟨a, ha, hyear, u, hu, hid.symm, rfl⟩
    · exfalso
      unfold annualLeaderboard at hok
      have : validCategories.contains category = false := by simpa using hcat
      simp only [this, Bool.not_false, if_true] at hok
      cases hok

/-- C12, the claim as stated fails: in a store reached from the empty store,
where user 1 has reported 0 pages today and has finished one book, the daily
leaderboard shows the user with `pages_read = 0` and the `movies_watched`
leaderboard shows the user with `count = 0`. -/
theorem leaderboard_zero_counterexample :
    zeroDay = run (emptyStore [⟨1, "ann", none⟩])
      [.addItem (clockAt "t0") 1 duneBody, .updateItem (clockAt "t1") 1 1 (duneUpdate true),
        .addDailyPages (clockAt "t2") 1 ⟨0, by decide⟩] ∧
    dailyReadingLeaderboard (clockAt "t3") zeroDay = [⟨"ann", none, 0⟩] ∧
    annualLeaderboard (clockAt "t3") "movies_watched" zeroDay = .ok [⟨"ann", none, 0⟩] ∧
    ¬ (∀ e ∈ dailyReadingLeaderboard (clockAt "t3") zeroDay, e.pages_read ≠ 0) :=
  ⟨rfl, by decide, rfl, by decide⟩

theorem leaderboards_only_from_rows_witness :
    ∀ e ∈ dailyReadingLeaderboard (clockAt "t4") readingDay,
      ∃ dr ∈ readingDay.daily_reading, dr.date = "2026-11-06" ∧
        ∃ u ∈ readingDay.users, u.id = dr.user_id ∧
          e = ⟨u.username, u.profile_picture, roundDouble dr.pages_read⟩ :=
  (leaderboards_only_from_rows (clockAt "t4") readingDay).1

/-! ## Listing items -/

theorem lexLe_total : ∀ a b : List Nat, lexLe a b = true ∨ lexLe b a = true
  | [], _ => Or.inl rfl
  | _ :: _, [] => Or.inr rfl
  | a :: as, b :: bs => by
    simp only [lexLe, Bool.or_eq_true, Bool.and_eq_true, decide_eq_true_eq]
    rcases Nat.lt_trichotomy a b with h | h | h
    · exact Or.inl (Or.inl h)
    · rcases lexLe_total as bs with h' | h'
      · exact Or.inl (Or.inr ⟨h, h'⟩)
      · exact Or.inr (Or.inr ⟨h.symm, h'⟩)
    · exact Or.inr (Or.inl h)

theorem lexLe_trans : ∀ a b c : List Nat, lexLe a b = true → lexLe b c = true →
    lexLe a c = true
  | [], _, _ => fun _ _ => rfl
  | _ :: _, [], _ => fun h _ => by simp [lexLe] at h
  | _ :: _, _ :: _, [] => fun _ h => by simp [lexLe] at h
  | a :: as, b :: bs, c :: cs => by
    simp only [lexLe, Bool.or_eq_true, Bool.and_eq_true, decide_eq_true_eq]
    rintro (h1 | ⟨h1, h1'⟩) (h2 | ⟨h2, h2'⟩)
    · exact Or.inl (Nat.lt_trans h1 h2)
    · exact Or.inl (h2 ▸ h1)
    · exact Or.inl (h1 ▸ h2)
    · exact Or.inr ⟨h1.trans h2, lexLe_trans as bs cs h1' h2'⟩

theorem nullsFirstLe_total {α : Type} (le : α → α → Bool)
    (ht : ∀ a b, le a b = true ∨ le b a = true) :
    ∀ a b : Option α, nullsFirstLe le a b = true ∨ nullsFirstLe le b a = true
  | none, _ => Or.inl rfl
  | some _, none => Or.inr rfl
  | some a, some b => ht a b

theorem nullsFirstLe_trans {α : Type} (le : α → α → Bool)
    (ht : ∀ a b c, le a b = true → le b c = true → le a c = true) :
    ∀ a b c : Option α, nullsFirstLe le a b = true → nullsFirstLe le b c = true →
      nullsFirstLe le a c = true
  | none, _, _ => fun _ _ => rfl
  | some _, none, _ => fun h _ => by simp [nullsFirstLe] at h
  | some _, some _, none => fun _ h => by simp [nullsFirstLe] at h
  | some a, some b, some c => ht a b c

theorem fieldLe_total (field : String) (a b : MediaItem) :
    fieldLe field a b = true ∨ fieldLe field b a = true := by
  unfold fieldLe
  split_ifs
  · exact nullsFirstLe_total textLe (fun x y => lexLe_total _ _) _ _
  · exact nullsFirstLe_total _ (fun x y => by simpa using Int.le_total x y) _ _
  · exact lexLe_total _ _
  · exact lexLe_total _ _

theorem fieldLe_trans (field : String) (a b c : MediaItem) :
    fieldLe field a b = true → fieldLe field b c = true → fieldLe field a c = true := by
  unfold fieldLe
  split_ifs
  · exact nullsFirstLe_trans textLe (fun x y z => lexLe_trans _ _ _) _ _ _
  · exact nullsFirstLe_trans _
      (fun x y z h1 h2 => by simpa using Int.le_trans (by simpa using h1) (by simpa using h2))
      _ _ _
  · exact lexLe_trans _ _ _
  · exact lexLe_trans _ _ _

theorem orderBy_perm {α : Type} (le : α → α → Bool) (ascending : Bool) (l : List α) :
    (orderBy le ascending l).Perm l := by
  unfold orderBy
  split
  · exact List.perm_insertionSort _ l
  · exact List.perm_insertionSort _ l

theorem orderBy_sorted {α : Type} (le : α → α → Bool)
    (htotal : ∀ a b, le a b = true ∨ le b a = true)
    (htrans : ∀ a b c, le a b = true → le b c = true → le a c = true)
    (ascending : Bool) (l : List α) :
    if ascending then (orderBy le ascending l).Pairwise (fun a b => le a b = true)
    else (orderBy le ascending l).Pairwise (fun a b => le b a = true) := by
  unfold orderBy
  cases ascending
  · haveI : IsTotal α (fun a b => le b a = true) := ⟨fun a b => htotal b a⟩
    haveI : IsTrans α (fun a b => le b a = true) := ⟨fun a b c hab hbc => htrans c b a hbc hab⟩
    exact List.sorted_insertionSort (fun a b => le b a = true) l
  · haveI : IsTotal α (fun a b => le a b = true) := ⟨htotal⟩
    haveI : IsTrans α (fun a b => le a b = true) := ⟨htrans⟩
    exact List.sorted_insertionSort (fun a b => le a b = true) l

theorem matchesParam_eq (param : Option String) (value : String) :
    matchesParam param value =
      param.all (fun p => decide (p = "") || decide (value = p)) := by
  cases param with
  | none => rfl
  | some p =>
    by_cases hp : p = ""
    · simp [matchesParam, truthy, hp]
    · by_cases hv : value = p
      · simp [matchesParam, truthy, hp, hv]
      · have hv' : ¬ p = value := fun h => hv h.symm
        simp [matchesParam, truthy, hp, hv, hv']

/-- C17. `listItems` returns, each exactly once, the stored items that are owned
by the requesting user, whose status is `filter.status` when that is given (a
non-empty string), and whose type is `filter.type` when that is given; whatever
the filter and sort arguments, every returned item is owned by the requesting
user. -/
theorem listItems_exact (user : Nat) (q : ListQuery) (s : Store) :
    (listItems user q s).Perm (s.media_items.filter (fun it =>
      decide (it.user_id = user) &&
      q.status.all (fun st => decide (st = "") || decide (it.status = st)) &&
      q.type.all (fun ty => decide (ty = "") || decide (it.type = ty)))) ∧
    (∀ it ∈ listItems user q s, it ∈ s.media_items ∧ it.user_id = user) := by
  have hperm : (listItems user q s).Perm (s.media_items.filter (fun it =>
      decide (it.user_id = user) &&
      q.status.all (fun st => decide (st = "") || decide (it.status = st)) &&
      q.type.all (fun ty => decide (ty = "") || decide (it.type = ty)))) := by
    unfold listItems
    simp only [matchesParam_eq]
    exact orderBy_perm _ _ _
  refine ⟨hperm, ?_⟩
  intro it hit
  rw [hperm.mem_iff, List.mem_filter] at hit
  simp only [Bool.and_eq_true, decide_eq_true_eq] at hit
  exact ⟨hit.1, hit.2.1.1⟩

theorem listItems_exact_witness :
    listItems 1 ⟨some "readlist", none, some "title", some "asc"⟩ library =
      [duneAdded, emmaAdded] ∧
    (∀ it ∈ listItems 1 ⟨some "readlist", none, some "title", some "asc"⟩ library,
      it ∈ library.media_items ∧ it.user_id = 1) ∧
    duneAdded.is_finished = false :=
  ⟨by decide,
    (listItems_exact 1 ⟨some "readlist", none, some "title", some "asc"⟩ library).2, rfl⟩

theorem sortFieldOf_invalid (sb : String) (h : sb ∉ validSortFields) :
    sortFieldOf (some sb) = "date_added" := by
  have : validSortFields.contains sb = false := by simpa using h
  simp only [sortFieldOf, Option.getD_some, this, Bool.false_eq_true, if_false]

theorem sortFieldOf_valid (sb : String) (h : sb ∈ validSortFields) :
    sortFieldOf (some sb) = sb := by
  have : validSortFields.contains sb = true := by simpa using h
  simp only [sortFieldOf, Option.getD_some, this, if_true]

theorem upperCaseIsASC_iff (so : String) :
    upperCaseIsASC so = true ↔
      so ∈ ["asc", "asC", "aSc", "aSC", "a\u017Fc", "a\u017FC",
        "Asc", "AsC", "ASc", "ASC", "A\u017Fc", "A\u017FC"] := by
  constructor
  · intro h
    obtain ⟨data⟩ := so
    unfold upperCaseIsASC at h
    match data, h with
    | [a, b, c], h =>
      simp only [decide_eq_true_eq] at h
      obtain ⟨ha, hb, hc⟩ := h
      rcases ha with rfl | rfl <;> rcases hb with rfl | rfl | rfl <;>
        rcases hc with rfl | rfl <;> decide
  · intro h
    simp only [List.mem_cons, List.mem_singleton, List.mem_nil_iff, or_false] at h
    rcases h with rfl | rfl | rfl | rfl | rfl | rfl | rfl | rfl | rfl | rfl | rfl | rfl <;>
      decide

/-- C18. For a `sortBy` that is not one of `date_added`, `release_date`,
`rating`, `title`, `listItems` returns what the same call with
`sortBy = date_added` returns (there is no error answer). For a recognised
`sortBy` the result is ordered by that column, `NULL` counting as the smallest
value and text compared by code points: ascending when the upper case of
`sortOrder` is `ASC`, which holds for `asc` and for the eleven other spellings
listed, descending otherwise, also for `desc` and when `sortOrder` is absent. -/
theorem listItems_sort (user : Nat) (q : ListQuery) (s : Store) :
    (∀ sb, sb ∉ ["date_added", "release_date", "rating", "title"] →
      listItems user { q with sort_by := some sb } s =
        listItems user { q with sort_by := some "date_added" } s) ∧
    (∀ sb, sb ∈ ["date_added", "release_date", "rating", "title"] →
      if isAscending q.sort_order then
        (listItems user { q with sort_by := some sb } s).Pairwise
          (fun a b => fieldLe sb a b = true)
      else
        (listItems user { q with sort_by := some sb } s).Pairwise
          (fun a b => fieldLe sb b a = true)) ∧
    (∀ a b, fieldLe "date_added" a b = textLe a.date_added b.date_added ∧
      fieldLe "release_date" a b = nullsFirstLe textLe a.release_date b.release_date ∧
      fieldLe "rating" a b = nullsFirstLe (fun x y => decide (x ≤ y)) a.rating b.rating ∧
      fieldLe "title" a b = textLe a.title b.title) ∧
    (isAscending q.sort_order = true ↔
      ∃ so, q.sort_order = some so ∧
        so ∈ ["asc", "asC", "aSc", "aSC", "a\u017Fc", "a\u017FC",
          "Asc", "AsC", "ASc", "ASC", "A\u017Fc", "A\u017FC"]) ∧
    (isAscending (some "asc") = true ∧ isAscending (some "ASC") = true ∧
      isAscending (some "a\u017Fc") = true ∧
      isAscending (some "desc") = false ∧ isAscending (some "DESC") = false ∧
      isAscending (some "") = false ∧ isAscending none = false) := by
  refine ⟨?_, ?_, ?_, ?_, by decide⟩
  · intro sb hsb
    unfold listItems
    simp only [sortFieldOf_invalid sb hsb]
    rfl
  · intro sb hsb
    unfold listItems
    simp only [sortFieldOf_valid sb hsb]
    exact orderBy_sorted _ (fieldLe_total sb) (fieldLe_trans sb) _ _
  · intro a b
    exact ⟨rfl, rfl, rfl, rfl⟩
  · cases hso : q.sort_order with
    | none =>
      constructor
      · intro h
        exact absurd h (by decide)
      · rintro ⟨so, h, -⟩
        cases h
    | some so =>
      simp only [isAscending, Option.getD_some, Option.some.injEq, exists_eq_left']
      exact upperCaseIsASC_iff so

theorem listItems_sort_witness :
    listItems 1 ⟨none, none, some "bogus", some "asc"⟩ library =
      listItems 1 ⟨none, none, some "date_added", some "asc"⟩ library ∧
    (listItems 1 ⟨none, none, some "title", some "asc"⟩ library).map (·.title) =
      ["", "Dune", "Emma"] ∧
    (listItems 1 ⟨none, none, some "title", some "desc"⟩ library).map (·.title) =
      ["Emma", "Dune", ""] ∧
    (listItems 1 ⟨none, none, some "title", some "a\u017Fc"⟩ library).map (·.title) =
      ["", "Dune", "Emma"] :=
  ⟨(listItems_sort 1 ⟨none, none, none, some "asc"⟩ library).1 "bogus" (by decide),
    by decide, by decide, by decide⟩

/-! ## What an update leaves alone -/

/-- C19. A successful `updateItem` on an owned item replaces its title, type,
status, rating, review, release date, pages read and `is_finished` by the
supplied values and its `date_completed` by the value of the completion rule;
it keeps the item's id, owner, `date_added` and `total_pages`, every row of
another item (and the number and ids of the rows), and the tables
`daily_reading` and `users`. -/
theorem updateItem_frame (c : Clock) (owner id : Nat) (b : UpdateBody) (s s' : Store)
    (item : MediaItem) (hok : updateItem c owner id b s = .ok s')
    (hfind : findOwned owner id s.media_items = some item) :
    (∃ item', findOwned owner id s'.media_items = some item' ∧
      b.title = some item'.title ∧ b.type = some item'.type ∧
      b.status = some item'.status ∧ item'.rating = b.rating ∧ item'.review = b.review ∧
      item'.release_date = b.release_date ∧ item'.pages_read = b.pages_read ∧
      item'.is_finished = b.is_finished ∧
      item'.date_completed = completionDate c item b ∧
      item'.id = item.id ∧ item'.user_id = item.user_id ∧
      item'.date_added = item.date_added ∧ item'.total_pages = item.total_pages) ∧
    s'.media_items.filter (fun it => !(it.id = id ∧ it.user_id = owner)) =
      s.media_items.filter (fun it => !(it.id = id ∧ it.user_id = owner)) ∧
    s'.media_items.length = s.media_items.length ∧
    s'.media_items.map (·.id) = s.media_items.map (·.id) ∧
    s'.daily_reading = s.daily_reading ∧ s'.users = s.users ∧
    s'.media_seq = s.media_seq := by
  obtain ⟨item0, title, type, status, hf, ht, hty, hst, rfl⟩ := updateItem_inv hok
  rw [hfind] at hf
  cases hf
  refine ⟨⟨setFields item title type status b (completionDate c item b), ?_, ht, hty, hst,
    rfl, rfl, rfl, rfl, rfl, rfl, rfl, rfl, rfl, rfl⟩, ?_, ?_, ?_, rfl, rfl, rfl⟩
  · simp only [findOwned_updatedItems, hfind, Option.map_some']
  · exact filter_map_ite_neg (fun it : MediaItem => it.id = id ∧ it.user_id = owner)
      (fun it => setFields it title type status b (completionDate c item b))
      (fun a ha => ha) s.media_items
  · simp only [updatedItems, List.length_map]
  · exact updatedItems_ids owner id title type status b _ s.media_items

theorem updateItem_frame_witness :
    updateItem (clockAt "t1") 1 1 (duneUpdate true) twoBooks =
        .ok (run twoBooks [.updateItem (clockAt "t1") 1 1 (duneUpdate true)]) ∧
    findOwned 1 1 twoBooks.media_items = some duneAdded ∧
    (run twoBooks [.updateItem (clockAt "t1") 1 1 (duneUpdate true)]).media_items.filter
        (fun it => !(it.id = 1 ∧ it.user_id = 1)) =
      twoBooks.media_items.filter (fun it => !(it.id = 1 ∧ it.user_id = 1)) ∧
    (run twoBooks [.updateItem (clockAt "t1") 1 1 (duneUpdate true)]).media_items =
      [duneFinished, emmaAdded] :=
  ⟨rfl, by decide,
    (updateItem_frame (clockAt "t1") 1 1 (duneUpdate true) twoBooks _ duneAdded rfl
      (by decide)).2.1, by decide⟩

/-! ## Two requests finishing the same item -/

/-- The handler `updateItem` is its three database calls run back to back. -/
theorem updateItem_eq_calls (c : Clock) (user id : Nat) (b : UpdateBody) (s : Store) :
    updateItem c user id b s =
      match updateItemRead user id s with
      | none => .error .notFound
      | some item =>
        match updateItemWrite c user id b item s with
        | .ok s' => .ok (updateItemNotify c user b item s')
        | .error e => .error e := by
  unfold updateItem updateItemRead
  cases findOwned user id s.media_items with
  | none => rfl
  | some item =>
    simp only [updateItemWrite, updateItemNotify]
    cases b.title <;> cases b.type <;> cases b.status <;> rfl

/-- C20, on the code: two requests finish "Dune", stored as not finished. Both
`db.get` calls run before either `UPDATE`, so both read the unfinished row; both
`UPDATE`s succeed, the first making the stored row finished before the second
runs; and both callbacks call `updateAnnualStats`: `books_read` goes from 0 to
2. Run one after the other, the same two requests count 1. -/
theorem concurrent_finish_counts_twice :
    updateItemRead 1 1 oneBook = some duneAdded ∧
    ∃ w1 w2,
      updateItemWrite (clockAt "t1") 1 1 (duneUpdate true) duneAdded oneBook = .ok w1 ∧
      findOwned 1 1 w1.media_items = some duneFinished ∧
      updateItemWrite (clockAt "t1") 1 1 (duneUpdate true) duneAdded w1 = .ok w2 ∧
      annualCount oneBook.annual_stats 1 2026 .books_read = 0 ∧
      annualCount
        (updateItemNotify (clockAt "t1") 1 (duneUpdate true) duneAdded
          (updateItemNotify (clockAt "t1") 1 (duneUpdate true) duneAdded w2)).annual_stats
        1 2026 .books_read = 2 ∧
      annualCount
        (run oneBook [.updateItem (clockAt "t1") 1 1 (duneUpdate true),
          .updateItem (clockAt "t1") 1 1 (duneUpdate true)]).annual_stats
        1 2026 .books_read = 1 :=
  ⟨by decide, _, _, rfl, by decide, rfl, by decide, by decide, by decide⟩

/-! ## Which counter a completion increments -/

theorem annualCount_upsertAnnual_other (userId year : Nat) (col : Column)
    (rows : List AnnualStats) (u y : Nat) (hne : ¬ (u = userId ∧ y = year)) (col' : Column) :
    annualCount (upsertAnnual userId year col rows) u y col' = annualCount rows u y col' := by
  have hsub : ∀ l : List AnnualStats,
      l.filter (fun r => decide (r.user_id = u ∧ r.year = y)) =
        (l.filter (fun r => !decide (r.user_id = userId ∧ r.year = year))).filter
          (fun r => decide (r.user_id = u ∧ r.year = y)) := by
    intro l
    rw [List.filter_filter]
    apply List.filter_congr
    intro r _
    by_cases hk : r.user_id = u ∧ r.year = y
    · have hn : ¬ (r.user_id = userId ∧ r.year = year) :=
        fun h => hne ⟨hk.1.symm.trans h.1, hk.2.symm.trans h.2⟩
      rw [decide_eq_true hk, decide_eq_false hn]
      rfl
    · simp [hk]
  unfold annualCount
  rw [hsub (upsertAnnual userId year col rows), upsertAnnual_filter_other, ← hsub rows]

/-- C21. The completion counter is chosen from the stored type. When an update
that is written finishes an item stored as not finished with type `t_old` while
the request carries type `t_new`, the item is stored with type `t_new`, and
`updateAnnualStats` is called with `t_old`: if `t_old` maps to a counter, that
counter of `(owner, year)` grows by 1 and no other counter of any row changes
(in a store satisfying the schema constraints); if `t_old` maps to no counter,
`annual_stats` is left as it was, whatever `t_new` is. -/
theorem counter_from_stored_type (c : Clock) (user id : Nat) (b : UpdateBody) (s : Store)
    (item : MediaItem) (title t_new status : String) (hwf : s.WF)
    (hfind : findOwned user id s.media_items = some item)
    (hnf : item.is_finished = false) (hfin : b.is_finished = true)
    (ht : b.title = some title) (hty : b.type = some t_new) (hst : b.status = some status) :
    ∃ s' item', updateItem c user id b s = .ok s' ∧
      findOwned user id s'.media_items = some item' ∧ item'.type = t_new ∧
      s'.annual_stats = updateAnnualStats c user item.type s.annual_stats ∧
      (∀ col, columnOfType item.type = some col → ∀ u y col',
        annualCount s'.annual_stats u y col' =
          annualCount s.annual_stats u y col' +
            if u = user ∧ y = c.year ∧ col' = col then 1 else 0) ∧
      (columnOfType item.type = none → s'.annual_stats = s.annual_stats) := by
  obtain ⟨s', hok, hfind', hstats, -⟩ :=
    updateItem_found c user id b s item title t_new status hfind ht hty hst
  simp only [hfin, hnf, Bool.not_false, Bool.and_self, if_true] at hstats
  refine ⟨s', _, hok, hfind', rfl, hstats, ?_, ?_⟩
  · intro col hcol u y col'
    rw [hstats]
    simp only [updateAnnualStats, hcol]
    by_cases hk : u = user ∧ y = c.year
    · obtain ⟨rfl, rfl⟩ := hk
      rw [annualCount_upsertAnnual _ _ _ _ (hwf.annual_unique _ _)]
      by_cases hc : col' = col <;> simp [hc]
    · rw [annualCount_upsertAnnual_other _ _ _ _ _ _ hk]
      have : ¬ (u = user ∧ y = c.year ∧ col' = col) := fun h => hk ⟨h.1, h.2.1⟩
      simp [this]
  · intro hnone
    rw [hstats]
    simp only [updateAnnualStats, hnone]

theorem counter_from_stored_type_witness :
    oneBook.WF ∧ findOwned 1 1 oneBook.media_items = some duneAdded ∧
    duneAdded.type = "book" ∧
    ∃ s' item', updateItem (clockAt "t1") 1 1 duneAsMovie oneBook = .ok s' ∧
      findOwned 1 1 s'.media_items = some item' ∧ item'.type = "movie" ∧
      s'.annual_stats = updateAnnualStats (clockAt "t1") 1 "book" oneBook.annual_stats ∧
      (∀ col, columnOfType "book" = some col → ∀ u y col',
        annualCount s'.annual_stats u y col' =
          annualCount oneBook.annual_stats u y col' +
            if u = 1 ∧ y = 2026 ∧ col' = col then 1 else 0) ∧
      (columnOfType "book" = none → s'.annual_stats = oneBook.annual_stats) :=
  ⟨wf_run (wf_emptyStore [⟨1, "ann", none⟩]) [.addItem (clockAt "t0") 1 duneBody],
    by decide, rfl,
    counter_from_stored_type (clockAt "t1") 1 1 duneAsMovie oneBook duneAdded
      "Dune" "movie" "watched"
      (wf_run (wf_emptyStore [⟨1, "ann", none⟩]) [.addItem (clockAt "t0") 1 duneBody])
      (by decide) rfl rfl rfl rfl rfl⟩

end MediaDiary
